import Mathlib

/-!
Verification of the Mock-Paper-Generator backend core
(`backend/src/core/{ocr,llm_mockgen,mock_upload,pipeline,mock_export}.py`).

Python strings are modelled as `List Char` / `String`; floats (OCR
confidences, bounding-box coordinates) as `ℚ`; fallible Python code as
`Except`.  Each definition is a direct translation of the source function
named in its doc comment.
-/

/-! ## Python string primitives -/

/-- The characters Python's `str.strip()` / `\s` treat as whitespace
(the ASCII fragment; `re`'s Unicode `\s` additionally covers rare
non-ASCII whitespace codepoints that never occur in this pipeline). -/
def pyIsSpace (c : Char) : Bool :=
  c = ' ' || c = '\t' || c = '\n' || c = '\r' || c = '\x0b' || c = '\x0c'

/-- Core of Python `str.replace`: leftmost, non-overlapping replacement of
the non-empty pattern `p :: ps` by `repl`.  Recursion is on a fuel
argument started at the string length; every step consumes at least one
character, so the fuel-exhausted arm is unreachable. -/
def pyReplaceFuel (p : Char) (ps repl : List Char) : Nat → List Char → List Char
  | _, [] => []
  | 0, s => s
  | fuel + 1, c :: rest =>
    if (p :: ps).isPrefixOf (c :: rest) then
      repl ++ pyReplaceFuel p ps repl fuel (rest.drop ps.length)
    else
      c :: pyReplaceFuel p ps repl fuel rest

/-- Python `str.replace(pat, repl)` on character lists.  (Python's
behaviour for an empty pattern is irrelevant here: every pattern the
source passes is non-empty, so that case is mapped to the identity.) -/
def pyReplace (s pat repl : List Char) : List Char :=
  match pat with
  | [] => s
  | p :: ps => pyReplaceFuel p ps repl s.length s

/-- Core of `re.sub(r"\s+", " ", ·)`: collapse every maximal run of
whitespace into a single space.  `prevSpace` records whether the
previous character belonged to a whitespace run. -/
def collapseWsAux : Bool → List Char → List Char
  | _, [] => []
  | prevSpace, c :: rest =>
    if pyIsSpace c then
      if prevSpace then collapseWsAux true rest
      else ' ' :: collapseWsAux true rest
    else
      c :: collapseWsAux false rest

/-- Model of `re.sub(r"\s+", " ", s)`. -/
def collapseWs (s : List Char) : List Char :=
  collapseWsAux false s

/-- Drop a trailing run of whitespace (the right half of `str.strip()`). -/
def dropTrailingWs : List Char → List Char
  | [] => []
  | c :: rest =>
    match dropTrailingWs rest with
    | [] => if pyIsSpace c then [] else [c]
    | r => c :: r

/-- Python `str.strip()` on character lists. -/
def pyStripL (s : List Char) : List Char :=
  dropTrailingWs (s.dropWhile pyIsSpace)

/-- Python `str.strip()` on strings. -/
def pyStrip (s : String) : String :=
  ⟨pyStripL s.data⟩

/-! ## `ocr._normalize_math_text` -/

/-- The `for k, v in replacements.items(): text = text.replace(k, v)` loop
of `ocr._normalize_math_text`, in the insertion order of its
`replacements` dict. -/
def mathReplacements (s : List Char) : List Char :=
  let s1 := pyReplace s ['O'] ['0']
  let s2 := pyReplace s1 ['l'] ['1']
  let s3 := pyReplace s2 ['×'] ['x']
  let s4 := pyReplace s3 ['−'] ['-']
  let s5 := pyReplace s4 ['-', '-'] ['–']
  let s6 := pyReplace s5 ['<', '='] ['≤']
  let s7 := pyReplace s6 ['>', '='] ['≥']
  let s8 := pyReplace s7 ['√', ' '] ['√']
  pyReplace s8 ['∑', ' '] ['∑']

/-- Model of `ocr._normalize_math_text` on character lists: the `replacements`
loop, then whitespace-run collapse, then strip. -/
def normalizeMathTextL (s : List Char) : List Char :=
  pyStripL (collapseWs (mathReplacements s))

/-- Model of `ocr._normalize_math_text`. -/
def normalizeMathText (s : String) : String :=
  ⟨normalizeMathTextL s.data⟩

/-! ## OCR recognition results (`ocr.ocr_image_easy` / `ocr.ocr_image_paddle`) -/

/-- One recognition result: `{"bbox": ..., "text": ..., "conf": ...}`.
A bounding box is a list of `(x, y)` points; recognition engines always
produce a non-empty one. -/
structure OcrToken where
  bbox : List (ℚ × ℚ)
  text : String
  conf : ℚ
  deriving DecidableEq

/-- The sort key `(x["bbox"][0][1], x["bbox"][0][0])` of
`ocr._sort_by_coordinates`: the `(top, left)` coordinates of the first
bounding-box point.  (`[0]` on an empty bbox would raise in Python;
recognition results always carry points, so the default is never hit.) -/
def tokenKey (t : OcrToken) : ℚ × ℚ :=
  match t.bbox with
  | [] => (0, 0)
  | p :: _ => (p.2, p.1)

/-- Lexicographic order on sort keys, exactly Python's tuple `<=`. -/
def pairLexLe (a b : ℚ × ℚ) : Bool :=
  if a.1 < b.1 then true
  else if a.1 = b.1 then decide (a.2 ≤ b.2)
  else false

/-- Insert into a sorted list in front of the first key-greater-or-equal
element: one step of a stable sort by `tokenKey`. -/
def insertByKey (x : OcrToken) : List OcrToken → List OcrToken
  | [] => [x]
  | y :: ys =>
    if pairLexLe (tokenKey x) (tokenKey y) then x :: y :: ys
    else y :: insertByKey x ys

/-- Model of `ocr._sort_by_coordinates`: Python's stable `sorted` with key
`(bbox[0][1], bbox[0][0])`, modelled as a stable insertion sort (any two
stable sorts under the same key agree, so this computes exactly what
`sorted` returns). -/
def sortByCoordinates : List OcrToken → List OcrToken
  | [] => []
  | x :: xs => insertByKey x (sortByCoordinates xs)

/-- The per-item loop of `ocr.ocr_image_easy`: normalize each token's
text, then drop it when the normalized text is empty or the confidence
is below the threshold. -/
def ocrKeepFilter (confThreshold : ℚ) : List OcrToken → List OcrToken
  | [] => []
  | it :: rest =>
    let t := normalizeMathText it.text
    if t = "" || it.conf < confThreshold then ocrKeepFilter confThreshold rest
    else { it with text := t } :: ocrKeepFilter confThreshold rest

/-- Model of `ocr.ocr_image_easy` after the engine call: `res` models the raw
`reader.readtext` output; the default `conf_threshold` is 3/10. -/
def ocrImageEasy (res : List OcrToken) (confThreshold : ℚ) : List OcrToken :=
  sortByCoordinates (ocrKeepFilter confThreshold res)

/-- Model of `ocr.ocr_image_paddle` after the engine call (paged result format):
flatten the pages, then the same filter and sort. -/
def ocrImagePaddle (pages : List (List OcrToken)) (confThreshold : ℚ) : List OcrToken :=
  sortByCoordinates (ocrKeepFilter confThreshold pages.flatten)

/-! ## Helper lemmas: string primitives -/

theorem pyReplaceFuel_mem_superset {a : Char} (p : Char) (ps repl : List Char) :
    ∀ (fuel : Nat) (s : List Char), a ∈ pyReplaceFuel p ps repl fuel s → a ∈ s ∨ a ∈ repl := by
  intro fuel
  induction fuel with
  | zero =>
    intro s h
    cases s with
    | nil => simp [pyReplaceFuel] at h
    | cons c rest => exact Or.inl (by simpa [pyReplaceFuel] using h)
  | succ fuel ih =>
    intro s h
    cases s with
    | nil => simp [pyReplaceFuel] at h
    | cons c rest =>
      rw [pyReplaceFuel] at h
      split at h
      · rcases List.mem_append.1 h with h | h
        · exact Or.inr h
        · rcases ih _ h with h | h
          · exact Or.inl (List.mem_cons_of_mem _ (List.mem_of_mem_drop h))
          · exact Or.inr h
      · rcases List.mem_cons.1 h with h | h
        · exact Or.inl (h ▸ List.mem_cons_self _ _)
        · rcases ih _ h with h | h
          · exact Or.inl (List.mem_cons_of_mem _ h)
          · exact Or.inr h

theorem pyReplace_mem_superset {a : Char} {s pat repl : List Char}
    (h : a ∈ pyReplace s pat repl) : a ∈ s ∨ a ∈ repl := by
  cases pat with
  | nil => exact Or.inl h
  | cons p ps => exact pyReplaceFuel_mem_superset p ps repl s.length s h

theorem pyReplaceFuel_single_not_mem {p : Char} {repl : List Char} (hrepl : p ∉ repl) :
    ∀ (fuel : Nat) (s : List Char), s.length ≤ fuel → p ∉ pyReplaceFuel p [] repl fuel s := by
  intro fuel
  induction fuel with
  | zero =>
    intro s hlen
    have : s = [] := List.length_eq_zero.1 (Nat.le_zero.1 hlen)
    subst this
    simp [pyReplaceFuel]
  | succ fuel ih =>
    intro s hlen
    cases s with
    | nil => simp [pyReplaceFuel]
    | cons c rest =>
      rw [pyReplaceFuel]
      split
      · next hpre =>
        intro h
        rcases List.mem_append.1 h with h | h
        · exact hrepl h
        · exact ih rest (by simpa using hlen) (by simpa using h)
      · next hpre =>
        intro h
        rcases List.mem_cons.1 h with h | h
        · apply hpre
          simp [List.isPrefixOf, h]
        · exact ih rest (by simpa using hlen) h

theorem pyReplace_single_not_mem {p : Char} {repl : List Char} (hrepl : p ∉ repl) :
    ∀ s : List Char, p ∉ pyReplace s [p] repl := by
  intro s
  exact pyReplaceFuel_single_not_mem hrepl s.length s le_rfl

theorem collapseWsAux_mem {a : Char} :
    ∀ (prev : Bool) (s : List Char), a ∈ collapseWsAux prev s → a ∈ s ∨ a = ' ' := by
  intro prev s
  induction s generalizing prev with
  | nil => intro h; simp [collapseWsAux] at h
  | cons c rest ih =>
    rw [collapseWsAux]
    split
    · split
      · intro h
        rcases ih true h with h | h
        · exact Or.inl (List.mem_cons_of_mem _ h)
        · exact Or.inr h
      · intro h
        rcases List.mem_cons.1 h with h | h
        · exact Or.inr h
        · rcases ih true h with h | h
          · exact Or.inl (List.mem_cons_of_mem _ h)
          · exact Or.inr h
    · intro h
      rcases List.mem_cons.1 h with h | h
      · exact Or.inl (h ▸ List.mem_cons_self _ _)
      · rcases ih false h with h | h
        · exact Or.inl (List.mem_cons_of_mem _ h)
        · exact Or.inr h

theorem collapseWsAux_space_eq {a : Char} :
    ∀ (prev : Bool) (s : List Char), a ∈ collapseWsAux prev s → pyIsSpace a → a = ' ' := by
  intro prev s
  induction s generalizing prev with
  | nil => intro h; simp [collapseWsAux] at h
  | cons c rest ih =>
    rw [collapseWsAux]
    split
    · split
      · exact ih true
      · intro h hsp
        rcases List.mem_cons.1 h with h | h
        · exact h
        · exact ih true h hsp
    · next hc =>
      intro h hsp
      rcases List.mem_cons.1 h with h | h
      · exact absurd (h ▸ hsp) (by simpa using hc)
      · exact ih false h hsp

theorem collapseWsAux_head_true :
    ∀ (s : List Char) (c : Char) (cs : List Char),
      collapseWsAux true s = c :: cs → pyIsSpace c = false := by
  intro s
  induction s with
  | nil => intro c cs h; simp [collapseWsAux] at h
  | cons b rest ih =>
    intro c cs h
    rw [collapseWsAux] at h
    by_cases hb : pyIsSpace b
    · rw [if_pos hb, if_pos rfl] at h
      exact ih c cs h
    · rw [if_neg hb] at h
      cases h
      simpa using hb

theorem collapseWsAux_chain' :
    ∀ (s : List Char) (prev : Bool),
      List.Chain' (fun a b => ¬(pyIsSpace a ∧ pyIsSpace b)) (collapseWsAux prev s) := by
  intro s
  induction s with
  | nil => intro prev; simp [collapseWsAux]
  | cons c rest ih =>
    intro prev
    rw [collapseWsAux]
    by_cases hc : pyIsSpace c
    · rw [if_pos hc]
      cases prev with
      | false =>
        rw [if_neg (by simp)]
        refine List.chain'_cons'.2 ⟨?_, ih true⟩
        intro y hy
        cases hh : collapseWsAux true rest with
        | nil => rw [hh] at hy; simp at hy
        | cons z zs =>
          rw [hh] at hy; simp at hy
          subst hy
          have := collapseWsAux_head_true rest z zs hh
          simp [this]
      | true => rw [if_pos rfl]; exact ih true
    · rw [if_neg hc]
      refine List.chain'_cons'.2 ⟨?_, ih false⟩
      intro y hy
      simp [hc]

theorem collapseWs_mem {a : Char} {s : List Char} (h : a ∈ collapseWs s) :
    a ∈ s ∨ a = ' ' :=
  collapseWsAux_mem false s h

theorem collapseWs_space_eq {a : Char} {s : List Char} (h : a ∈ collapseWs s)
    (hsp : pyIsSpace a) : a = ' ' :=
  collapseWsAux_space_eq false s h hsp

theorem collapseWs_chain' (s : List Char) :
    List.Chain' (fun a b => ¬(pyIsSpace a ∧ pyIsSpace b)) (collapseWs s) :=
  collapseWsAux_chain' s false

theorem dropTrailingWs_eq_take (l : List Char) : ∃ n, dropTrailingWs l = l.take n := by
  induction l with
  | nil => exact ⟨0, rfl⟩
  | cons c rest ih =>
    obtain ⟨n, hn⟩ := ih
    cases h : dropTrailingWs rest with
    | nil =>
      by_cases hc : pyIsSpace c
      · exact ⟨0, by rw [dropTrailingWs, h]; simp [hc]⟩
      · exact ⟨1, by rw [dropTrailingWs, h]; simp [hc]⟩
    | cons r rs =>
      refine ⟨n + 1, ?_⟩
      rw [dropTrailingWs, h, List.take_succ_cons, ← hn, h]

theorem pyStripL_subset {a : Char} {s : List Char} (h : a ∈ pyStripL s) : a ∈ s := by
  unfold pyStripL at h
  obtain ⟨n, hn⟩ := dropTrailingWs_eq_take (s.dropWhile pyIsSpace)
  rw [hn] at h
  exact (List.dropWhile_suffix pyIsSpace).subset (List.take_subset n _ h)

theorem pyStripL_chain' {R : Char → Char → Prop} {s : List Char}
    (h : List.Chain' R s) : List.Chain' R (pyStripL s) := by
  unfold pyStripL
  obtain ⟨n, hn⟩ := dropTrailingWs_eq_take (s.dropWhile pyIsSpace)
  rw [hn]
  exact (h.suffix (List.dropWhile_suffix pyIsSpace)).take n

/-! ## Helper lemmas: OCR filter and sort -/

theorem pairLexLe_iff (a b : ℚ × ℚ) :
    pairLexLe a b = true ↔ a.1 < b.1 ∨ (a.1 = b.1 ∧ a.2 ≤ b.2) := by
  unfold pairLexLe
  split_ifs with h1 h2
  · simp [h1]
  · simp [h1, h2]
  · simp [h1, h2]

theorem pairLexLe_total (a b : ℚ × ℚ) : pairLexLe a b = true ∨ pairLexLe b a = true := by
  rcases lt_trichotomy a.1 b.1 with h | h | h
  · exact Or.inl ((pairLexLe_iff a b).2 (Or.inl h))
  · by_cases h2 : a.2 ≤ b.2
    · exact Or.inl ((pairLexLe_iff a b).2 (Or.inr ⟨h, h2⟩))
    · exact Or.inr ((pairLexLe_iff b a).2 (Or.inr ⟨h.symm, le_of_not_le h2⟩))
  · exact Or.inr ((pairLexLe_iff b a).2 (Or.inl h))

theorem pairLexLe_trans {a b c : ℚ × ℚ}
    (hab : pairLexLe a b = true) (hbc : pairLexLe b c = true) : pairLexLe a c = true := by
  rw [pairLexLe_iff] at hab hbc ⊢
  rcases hab with h | ⟨h, h2⟩
  · rcases hbc with h' | ⟨h', h2'⟩
    · exact Or.inl (h.trans h')
    · exact Or.inl (h' ▸ h)
  · rcases hbc with h' | ⟨h', h2'⟩
    · exact Or.inl (h ▸ h')
    · exact Or.inr ⟨h.trans h', h2.trans h2'⟩

/-- Abbreviation for the sortedness relation of `ocr._sort_by_coordinates`. -/
def tokenLe (a b : OcrToken) : Prop :=
  pairLexLe (tokenKey a) (tokenKey b) = true

theorem mem_insertByKey {a x : OcrToken} :
    ∀ l : List OcrToken, a ∈ insertByKey x l ↔ a = x ∨ a ∈ l := by
  intro l
  induction l with
  | nil => simp [insertByKey]
  | cons y ys ih =>
    rw [insertByKey]
    split
    · simp
    · simp only [List.mem_cons, ih]
      tauto

theorem mem_sortByCoordinates {a : OcrToken} :
    ∀ l : List OcrToken, a ∈ sortByCoordinates l ↔ a ∈ l := by
  intro l
  induction l with
  | nil => simp [sortByCoordinates]
  | cons x xs ih =>
    rw [sortByCoordinates]
    simp only [mem_insertByKey, ih, List.mem_cons]

theorem pairwise_insertByKey {x : OcrToken} :
    ∀ l : List OcrToken, List.Pairwise tokenLe l → List.Pairwise tokenLe (insertByKey x l) := by
  intro l
  induction l with
  | nil => intro _; simp [insertByKey, List.pairwise_singleton]
  | cons y ys ih =>
    intro hl
    rw [List.pairwise_cons] at hl
    obtain ⟨hy, hys⟩ := hl
    rw [insertByKey]
    split
    · next hxy =>
      rw [List.pairwise_cons]
      refine ⟨?_, List.pairwise_cons.2 ⟨hy, hys⟩⟩
      intro z hz
      rcases List.mem_cons.1 hz with h | h
      · exact h ▸ hxy
      · exact pairLexLe_trans hxy (hy z h)
    · next hxy =>
      rw [List.pairwise_cons]
      refine ⟨?_, ih hys⟩
      intro z hz
      rcases (mem_insertByKey _).1 hz with h | h
      · rw [h]
        rcases pairLexLe_total (tokenKey x) (tokenKey y) with h2 | h2
        · exact absurd h2 hxy
        · exact h2
      · exact hy z h

theorem pairwise_sortByCoordinates :
    ∀ l : List OcrToken, List.Pairwise tokenLe (sortByCoordinates l) := by
  intro l
  induction l with
  | nil => simp [sortByCoordinates]
  | cons x xs ih => exact pairwise_insertByKey _ ih

theorem mem_ocrKeepFilter {a : OcrToken} {t : ℚ} :
    ∀ res : List OcrToken,
      a ∈ ocrKeepFilter t res ↔
        ∃ it ∈ res, normalizeMathText it.text ≠ "" ∧ ¬(it.conf < t) ∧
          a = { it with text := normalizeMathText it.text } := by
  intro res
  induction res with
  | nil => simp [ocrKeepFilter]
  | cons it rest ih =>
    rw [ocrKeepFilter]
    split
    · next hdrop =>
      rw [Bool.or_eq_true, decide_eq_true_iff, decide_eq_true_iff] at hdrop
      rw [ih]
      constructor
      · rintro ⟨it₀, h1, h2, h3, h4⟩
        exact ⟨it₀, List.mem_cons_of_mem _ h1, h2, h3, h4⟩
      · rintro ⟨it₀, h1, h2, h3, h4⟩
        rcases List.mem_cons.1 h1 with h | h
        · subst h
          rcases hdrop with hd | hd
          · exact absurd hd h2
          · exact absurd hd h3
        · exact ⟨it₀, h, h2, h3, h4⟩
    · next hkeep =>
      rw [Bool.or_eq_true, decide_eq_true_iff, decide_eq_true_iff] at hkeep
      push_neg at hkeep
      rw [List.mem_cons, ih]
      constructor
      · rintro (h | ⟨it₀, h1, h2, h3, h4⟩)
        · exact ⟨it, List.mem_cons_self _ _, hkeep.1, not_lt.2 hkeep.2, h⟩
        · exact ⟨it₀, List.mem_cons_of_mem _ h1, h2, h3, h4⟩
      · rintro ⟨it₀, h1, h2, h3, h4⟩
        rcases List.mem_cons.1 h1 with h | h
        · exact Or.inl (h ▸ h4)
        · exact Or.inr ⟨it₀, h, h2, h3, h4⟩

theorem mem_ocrImageEasy {a : OcrToken} {t : ℚ} {res : List OcrToken} :
    a ∈ ocrImageEasy res t ↔
      ∃ it ∈ res, normalizeMathText it.text ≠ "" ∧ ¬(it.conf < t) ∧
        a = { it with text := normalizeMathText it.text } := by
  unfold ocrImageEasy
  rw [mem_sortByCoordinates, mem_ocrKeepFilter]

theorem normalizeMathText_data (s : String) :
    (normalizeMathText s).data = normalizeMathTextL s.data := by
  simp only [normalizeMathText]

theorem mathReplacements_no_forbidden (s : List Char) :
    'O' ∉ mathReplacements s ∧ 'l' ∉ mathReplacements s := by
  have step : ∀ (c : Char) (u pat repl : List Char),
      c ∉ u → c ∉ repl → c ∉ pyReplace u pat repl := by
    intro c u pat repl hu hr h
    rcases pyReplace_mem_superset h with h | h
    · exact hu h
    · exact hr h
  simp only [mathReplacements]
  constructor
  · intro h
    have h1 : 'O' ∉ pyReplace s ['O'] ['0'] := pyReplace_single_not_mem (by decide) s
    have h2 := step 'O' _ ['l'] ['1'] h1 (by decide)
    have h3 := step 'O' _ ['×'] ['x'] h2 (by decide)
    have h4 := step 'O' _ ['−'] ['-'] h3 (by decide)
    have h5 := step 'O' _ ['-', '-'] ['–'] h4 (by decide)
    have h6 := step 'O' _ ['<', '='] ['≤'] h5 (by decide)
    have h7 := step 'O' _ ['>', '='] ['≥'] h6 (by decide)
    have h8 := step 'O' _ ['√', ' '] ['√'] h7 (by decide)
    exact step 'O' _ ['∑', ' '] ['∑'] h8 (by decide) h
  · intro h
    have h2 : 'l' ∉ pyReplace (pyReplace s ['O'] ['0']) ['l'] ['1'] :=
      pyReplace_single_not_mem (by decide) _
    have h3 := step 'l' _ ['×'] ['x'] h2 (by decide)
    have h4 := step 'l' _ ['−'] ['-'] h3 (by decide)
    have h5 := step 'l' _ ['-', '-'] ['–'] h4 (by decide)
    have h6 := step 'l' _ ['<', '='] ['≤'] h5 (by decide)
    have h7 := step 'l' _ ['>', '='] ['≥'] h6 (by decide)
    have h8 := step 'l' _ ['√', ' '] ['√'] h7 (by decide)
    exact step 'l' _ ['∑', ' '] ['∑'] h8 (by decide) h

theorem normalizeMathTextL_no_forbidden (s : List Char) :
    'O' ∉ normalizeMathTextL s ∧ 'l' ∉ normalizeMathTextL s := by
  constructor
  · intro h
    rw [normalizeMathTextL] at h
    rcases collapseWs_mem (pyStripL_subset h) with hb | hb
    · exact (mathReplacements_no_forbidden s).1 hb
    · exact absurd hb (by decide)
  · intro h
    rw [normalizeMathTextL] at h
    rcases collapseWs_mem (pyStripL_subset h) with hb | hb
    · exact (mathReplacements_no_forbidden s).2 hb
    · exact absurd hb (by decide)

/-! ## Claim theorems: OCR -/

/-- C5: OCR confidence filtering in `ocr_image_easy` is monotonic in the
threshold: for thresholds `t1 ≤ t2`, every token kept at `t2` is kept at
`t1` and every token discarded at `t1` is discarded at `t2`; a token is
kept exactly when its confidence is `≥` the threshold and its normalized
text is non-empty. -/
theorem ocr_confidence_filter_monotonic (res : List OcrToken) (t1 t2 : ℚ) (h : t1 ≤ t2) :
    (∀ it, it ∈ ocrImageEasy res t2 → it ∈ ocrImageEasy res t1) ∧
    (∀ it, it ∉ ocrImageEasy res t1 → it ∉ ocrImageEasy res t2) ∧
    (∀ it, it ∈ ocrImageEasy res t1 ↔
      ∃ it₀ ∈ res, normalizeMathText it₀.text ≠ "" ∧ t1 ≤ it₀.conf ∧
        it = { it₀ with text := normalizeMathText it₀.text }) := by
  have key : ∀ it, it ∈ ocrImageEasy res t2 → it ∈ ocrImageEasy res t1 := by
    intro it hit
    rw [mem_ocrImageEasy] at hit ⊢
    obtain ⟨it₀, h1, h2, h3, h4⟩ := hit
    exact ⟨it₀, h1, h2, fun hlt => h3 (lt_of_lt_of_le hlt h), h4⟩
  refine ⟨key, fun it h1 h2 => h1 (key it h2), ?_⟩
  intro it
  rw [mem_ocrImageEasy]
  constructor
  · rintro ⟨it₀, ha, hb, hc, hd⟩
    exact ⟨it₀, ha, hb, not_lt.1 hc, hd⟩
  · rintro ⟨it₀, ha, hb, hc, hd⟩
    exact ⟨it₀, ha, hb, not_lt.2 hc, hd⟩

/-- Witness for C5 at a concrete recognition result and the thresholds
3/10 ≤ 7/10. -/
theorem ocr_confidence_filter_monotonic_witness :
    (0 : ℚ) ≤ 1 ∧
      (⟨[(5, 7)], "x = 2", 2⟩ : OcrToken) ∈
        ocrImageEasy [⟨[(5, 7)], "x = 2", 2⟩] 0 :=
  ⟨by norm_num,
    (ocr_confidence_filter_monotonic [⟨[(5, 7)], "x = 2", 2⟩] 0 1
        (by norm_num)).1 _ (by decide)⟩

/-- C6: the token lists returned by `ocr_image_easy` and
`ocr_image_paddle` are sorted by the top coordinate of each token's
bounding-box origin, ties broken by the left coordinate (the
lexicographic order `tokenLe` on `(top, left)` keys). -/
theorem ocr_output_sorted_by_bbox_origin :
    (∀ (res : List OcrToken) (t : ℚ), List.Pairwise tokenLe (ocrImageEasy res t)) ∧
    (∀ (pages : List (List OcrToken)) (t : ℚ), List.Pairwise tokenLe (ocrImagePaddle pages t)) :=
  ⟨fun _ _ => pairwise_sortByCoordinates _, fun _ _ => pairwise_sortByCoordinates _⟩

section
attribute [local irreducible] mathReplacements

/-- C10: `_normalize_math_text` output never contains an uppercase
'O' or a lowercase 'l' (they are rewritten to digits), every whitespace
character in it is a plain space and no two adjacent characters are
whitespace (runs are collapsed), and this normalization is applied to
every token `ocr_image_easy` returns. -/
theorem ocr_normalize_rewrites_O_l_collapses_ws :
    (∀ s : String, 'O' ∉ (normalizeMathText s).data ∧ 'l' ∉ (normalizeMathText s).data) ∧
    (∀ s : String, ∀ c ∈ (normalizeMathText s).data, pyIsSpace c → c = ' ') ∧
    (∀ s : String,
      List.Chain' (fun a b => ¬(pyIsSpace a ∧ pyIsSpace b)) (normalizeMathText s).data) ∧
    (∀ (res : List OcrToken) (t : ℚ), ∀ it ∈ ocrImageEasy res t,
      ∃ it₀ ∈ res, it.text = normalizeMathText it₀.text) := by
  refine ⟨?_, ?_, ?_, ?_⟩
  · intro s
    rw [normalizeMathText_data]
    exact normalizeMathTextL_no_forbidden s.data
  · intro s c hc hsp
    rw [normalizeMathText_data, normalizeMathTextL] at hc
    exact collapseWs_space_eq (pyStripL_subset hc) hsp
  · intro s
    rw [normalizeMathText_data, normalizeMathTextL]
    exact pyStripL_chain' (collapseWs_chain' _)
  · intro res t it hit
    obtain ⟨it₀, h1, _, _, h4⟩ := mem_ocrImageEasy.1 hit
    exact ⟨it₀, h1, by rw [h4]⟩

end

/-! ## `llm_mockgen`: schema and answer-key completion -/

/-- Python per-character `str.isdigit`: true on ASCII decimal digits and
on digit-valued codepoints such as the superscript digits.  (The full
Python predicate accepts further rare digit-valued codepoints; the model
enumerates the ASCII digits and the superscripts, which is exact on
every input considered here.) -/
def pyCharIsDigit (c : Char) : Bool :=
  c.isDigit || c ∈ ['⁰', '¹', '²', '³', '⁴', '⁵', '⁶', '⁷', '⁸', '⁹']

/-- Python `str.isdigit`: non-empty and every character digit-valued. -/
def pyIsDigitStr (s : List Char) : Bool :=
  !s.isEmpty && s.all pyCharIsDigit

/-- Python `int(·)` on a stripped string that passed `isdigit`: parsing
succeeds only when every character is a decimal digit — superscript
digits pass `isdigit` but make `int` raise `ValueError`. -/
def pyIntOfDigits (s : List Char) : Option Nat :=
  if s ≠ [] ∧ s.all Char.isDigit then
    some (s.foldl (fun acc c => acc * 10 + (c.toNat - '0'.toNat)) 0)
  else none

/-- Python `str.lower` (ASCII case mapping, the fragment exercised). -/
def pyLowerL (s : List Char) : List Char :=
  s.map Char.toLower

/-- The `correct` field of a question: `Optional[str | int]` (the
payload when present). -/
inductive CorrectV where
  | int (n : Int)
  | str (s : String)
  deriving DecidableEq

/-- Model of `"abcd"[n]` for the indices reachable in the source (guards keep
`n ≤ 3`). -/
def abcdLabel (n : Nat) : String :=
  match n with
  | 0 => "a"
  | 1 => "b"
  | 2 => "c"
  | 3 => "d"
  | _ => ""

/-- Consume one optional literal character: `c?` in a regex.  Greedy
matching is deterministic here because in both regexes no optional
character can also begin the piece that follows it. -/
def skipOpt (c : Char) : List Char → List Char
  | [] => []
  | x :: r => if x = c then r else x :: r

/-- The regex `^\(?([abcd])\)?\.?$` of `_normalize_mcq_correct_label`:
optional `(`, one letter a–d, optional `)`, optional `.`, end of string. -/
def matchLetterParen (s : List Char) : Option String :=
  match skipOpt '(' s with
  | l :: r =>
    if l = 'a' ∨ l = 'b' ∨ l = 'c' ∨ l = 'd' then
      if skipOpt '.' (skipOpt ')' r) = [] then some (String.mk [l]) else none
    else none
  | [] => none

/-- The regex `^\(?([1-4])\)?\.?$` of `_normalize_mcq_correct_label`
(the character class `[1-4]` enumerated), mapped through
`"abcd"[int(m.group(1)) - 1]`. -/
def matchDigitParen (s : List Char) : Option String :=
  match skipOpt '(' s with
  | l :: r =>
    if l = '1' ∨ l = '2' ∨ l = '3' ∨ l = '4' then
      if skipOpt '.' (skipOpt ')' r) = [] then some (abcdLabel (l.toNat - '1'.toNat)) else none
    else none
  | [] => none

/-- The two regex fallbacks of `_normalize_mcq_correct_label`, tried in
source order (letter pattern, then digit pattern, then `None`). -/
def mcqRegexFallback (c : List Char) : Option String :=
  match matchLetterParen c with
  | some l => some l
  | none => matchDigitParen c

/-- Model of `llm_mockgen._normalize_mcq_correct_label`.  `Except` models an
uncaught Python exception: `int(c)` raises when `c.isdigit()` holds but
`c` is not made of decimal digits (e.g. a superscript digit). -/
def normalizeMcqCorrectLabel : Option CorrectV → Except String (Option String)
  | none => .ok none
  | some (.int n) =>
    if 0 ≤ n ∧ n ≤ 3 then .ok (some (abcdLabel n.toNat))
    else if 1 ≤ n ∧ n ≤ 4 then .ok (some (abcdLabel (n - 1).toNat))
    else .ok none
  | some (.str s0) =>
    let c := pyLowerL (pyStripL s0.data)
    if c = ['a'] ∨ c = ['b'] ∨ c = ['c'] ∨ c = ['d'] then .ok (some (String.mk c))
    else if pyIsDigitStr c then
      match pyIntOfDigits c with
      | none => .error "ValueError: invalid literal for int() with base 10"
      | some n =>
        if n ≤ 3 then .ok (some (abcdLabel n))
        else if 1 ≤ n ∧ n ≤ 4 then .ok (some (abcdLabel (n - 1)))
        else .ok (mcqRegexFallback c)
    else .ok (mcqRegexFallback c)

/-- Model of `llm_mockgen.Asset`. -/
structure Asset where
  question_id : String
  kind : String
  prompt : String
  deriving DecidableEq

/-- Model of `llm_mockgen.Question`. -/
structure Question where
  id : String
  type : String
  marks : Option Int
  text : String
  options : Option (List String)
  correct : Option CorrectV
  assets : Option (List Asset)
  deriving DecidableEq

/-- Model of `llm_mockgen.Section`. -/
structure Section where
  title : String
  questions : List Question
  deriving DecidableEq

/-- Model of `llm_mockgen.AnswerItem`. -/
structure AnswerItem where
  id : String
  answer : String
  workings : Option String
  deriving DecidableEq

/-- Model of `llm_mockgen.MockSpec`. -/
structure MockSpec where
  title : String
  instructions : Option String
  sections : List Section
  answer_key : List AnswerItem
  assets : List Asset
  deriving DecidableEq

/-- Model of `Question._strip_empty_options`: falsy input unchanged; otherwise
strip each option, drop empties, and collapse an all-empty result to
`None`. -/
def stripEmptyOptions : Option (List String) → Option (List String)
  | none => none
  | some [] => some []
  | some l =>
    let l2 := (l.map pyStrip).filter (fun x => x ≠ "")
    if l2 = [] then none else some l2

/-- Per-question pydantic validation (its one field validator). -/
def validateQuestion (q : Question) : Question :=
  { q with options := stripEmptyOptions q.options }

/-- Per-section pydantic validation. -/
def validateSection (s : Section) : Section :=
  { s with questions := s.questions.map validateQuestion }

/-- The question ids gathered by `MockSpec._answers_refer_to_existing_qids`
(and `MockSpec._qid_set`): every question id of every section. -/
def allQuestionsOf (sections : List Section) : List Question :=
  (sections.map (fun s => s.questions)).flatten

def qidsOfSections (sections : List Section) : List String :=
  (allQuestionsOf sections).map (fun q => q.id)

/-- Model of `MockSpec._answers_refer_to_existing_qids`.  The module
imports `RootModel` and `field_validator`, so pydantic v2 runs the
validator; its third argument is then a `ValidationInfo`, which has no
`.get` method, so `values.get("sections")` raises `AttributeError`,
which the bare `except Exception: pass` swallows.  `qids` therefore
stays empty, the guard `if qids and v:` is always false, and the
orphan-answer filter in the body is dead code: the validator returns
the answer key unchanged on every input. -/
def validateAnswerKey ( _sections : List Section) (v : List AnswerItem) : List AnswerItem :=
  v

/-- Pydantic validation of a whole `MockSpec`: per-question option
stripping, then the answer-key validator (fields validate in declaration
order, so the validated `sections` are in scope for `answer_key`). -/
def validateMockSpec (m : MockSpec) : MockSpec :=
  let sections := m.sections.map validateSection
  { m with sections := sections,
           answer_key := validateAnswerKey sections m.answer_key }

def answerIdsOf (ak : List AnswerItem) : List String :=
  ak.map (fun a => a.id)

/-- The answer synthesized for one uncovered question in
`_ensure_complete_answer_key`: for a question with (truthy) options,
normalize `correct` (propagating its exception) and fall back to the
`"[missing]"` placeholder; for any other question, the placeholder. -/
def synthAnswer (q : Question) : Except String AnswerItem :=
  match q.options with
  | some (_ :: _) =>
    match normalizeMcqCorrectLabel q.correct with
    | .error e => .error e
    | .ok none => .ok ⟨q.id, "[missing]", none⟩
    | .ok (some lab) => .ok ⟨q.id, lab, none⟩
  | _ => .ok ⟨q.id, "[missing]", none⟩

/-- The question loop of `_ensure_complete_answer_key`: walk the
questions in section order, appending a synthesized answer for each id
not yet covered and recording it as covered. -/
def ensureAnswerLoop :
    List Question → List AnswerItem → List String →
      Except String (List AnswerItem × List String)
  | [], ak, existing => .ok (ak, existing)
  | q :: qs, ak, existing =>
    if q.id ∈ existing then ensureAnswerLoop qs ak existing
    else
      match synthAnswer q with
      | .error e => .error e
      | .ok item => ensureAnswerLoop qs (ak ++ [item]) (existing ++ [q.id])

/-- Model of `llm_mockgen._ensure_complete_answer_key` (the in-place mutation of
`m.answer_key` modelled functionally; `Except` propagates the
normalization exception). -/
def ensureCompleteAnswerKey (m : MockSpec) : Except String MockSpec :=
  match ensureAnswerLoop (allQuestionsOf m.sections) m.answer_key (answerIdsOf m.answer_key) with
  | .error e => .error e
  | .ok (ak, _) => .ok { m with answer_key := ak }

/-! ## Helper lemmas: answer-key completion -/

theorem synthAnswer_id {q : Question} {item : AnswerItem}
    (h : synthAnswer q = .ok item) : item.id = q.id := by
  unfold synthAnswer at h
  split at h
  · split at h
    · exact absurd h (by simp)
    · cases h
      rfl
    · cases h
      rfl
  · cases h
    rfl

theorem ensureAnswerLoop_append :
    ∀ (qs : List Question) (ak : List AnswerItem) (ex : List String)
      (res : List AnswerItem × List String),
      ensureAnswerLoop qs ak ex = .ok res → ∃ suffix, res.1 = ak ++ suffix := by
  intro qs
  induction qs with
  | nil =>
    intro ak ex res h
    rw [ensureAnswerLoop] at h
    injection h with h
    subst h
    exact ⟨[], by simp⟩
  | cons q qs ih =>
    intro ak ex res h
    rw [ensureAnswerLoop] at h
    split at h
    · exact ih ak ex res h
    · split at h
      · exact absurd h (by simp)
      · next item hsy =>
        obtain ⟨suf, hs⟩ := ih _ _ res h
        exact ⟨item :: suf, by rw [hs, List.append_assoc]; rfl⟩

theorem ensureAnswerLoop_ids :
    ∀ (qs : List Question) (ak : List AnswerItem) (ex : List String)
      (res : List AnswerItem × List String),
      ensureAnswerLoop qs ak ex = .ok res →
      (∀ y, y ∈ ex ↔ y ∈ answerIdsOf ak) →
      ∀ x, x ∈ answerIdsOf res.1 ↔ (x ∈ answerIdsOf ak ∨ ∃ q ∈ qs, q.id = x) := by
  intro qs
  induction qs with
  | nil =>
    intro ak ex res h hex x
    rw [ensureAnswerLoop] at h
    injection h with h
    subst h
    simp
  | cons q qs ih =>
    intro ak ex res h hex x
    rw [ensureAnswerLoop] at h
    split at h
    · next hqin =>
      rw [ih ak ex res h hex x]
      constructor
      · rintro (h1 | ⟨q', hq', hid⟩)
        · exact Or.inl h1
        · exact Or.inr ⟨q', List.mem_cons_of_mem _ hq', hid⟩
      · rintro (h1 | ⟨q', hq', hid⟩)
        · exact Or.inl h1
        · rcases List.mem_cons.1 hq' with rfl | hq'
          · exact Or.inl (hid ▸ (hex q'.id).1 hqin)
          · exact Or.inr ⟨q', hq', hid⟩
    · next hqnotin =>
      split at h
      · exact absurd h (by simp)
      · next item hsy =>
        have hid := synthAnswer_id hsy
        have hex' : ∀ y, y ∈ ex ++ [q.id] ↔ y ∈ answerIdsOf (ak ++ [item]) := by
          intro y
          simp only [answerIdsOf, List.map_append, List.mem_append, List.map_cons,
            List.map_nil, List.mem_singleton, hid]
          rw [← answerIdsOf, ← hex y]
        rw [ih _ _ res h hex' x]
        simp only [answerIdsOf, List.map_append, List.mem_append, List.map_cons,
          List.map_nil, List.mem_singleton, hid]
        constructor
        · rintro ((h1 | h1) | ⟨q', hq', hid'⟩)
          · exact Or.inl h1
          · exact Or.inr ⟨q, List.mem_cons_self _ _, h1.symm⟩
          · exact Or.inr ⟨q', List.mem_cons_of_mem _ hq', hid'⟩
        · rintro (h1 | ⟨q', hq', hid'⟩)
          · exact Or.inl (Or.inl h1)
          · rcases List.mem_cons.1 hq' with rfl | hq'
            · exact Or.inl (Or.inr hid'.symm)
            · exact Or.inr ⟨q', hq', hid'⟩

/-! ## Claim theorems: answer-key completion (C1, C9) -/

/-- C9: `_ensure_complete_answer_key` only appends: every
pre-existing `AnswerItem` is left unchanged and in its original order at
the front of the resulting `answer_key`, and no field of the spec other
than `answer_key` is modified. -/
theorem answer_key_completion_append_only (m m' : MockSpec)
    (h : ensureCompleteAnswerKey m = .ok m') :
    m'.title = m.title ∧ m'.instructions = m.instructions ∧
    m'.sections = m.sections ∧ m'.assets = m.assets ∧
    (∃ suffix, m'.answer_key = m.answer_key ++ suffix) := by
  unfold ensureCompleteAnswerKey at h
  split at h
  · exact absurd h (by simp)
  · next ak ex heq =>
    have hm : ({ m with answer_key := ak } : MockSpec) = m' := by
      injection h
    subst hm
    refine ⟨rfl, rfl, rfl, rfl, ?_⟩
    simpa using ensureAnswerLoop_append _ _ _ _ heq

/-- Concrete run of C9: a spec with one free question and one
pre-existing answer; completion appends the missing entry after it. -/
def mockW : MockSpec :=
  { title := "Mock Exam Paper", instructions := none,
    sections := [⟨"Section 1",
      [⟨"q1", "free", none, "State the law.", none, none, none⟩]⟩],
    answer_key := [⟨"q0", "42", some "w"⟩], assets := [] }

def mockWDone : MockSpec :=
  { mockW with answer_key := [⟨"q0", "42", some "w"⟩, ⟨"q1", "[missing]", none⟩] }

/-- Witness for C9 at `mockW`. -/
theorem answer_key_completion_append_only_witness :
    ensureCompleteAnswerKey mockW = .ok mockWDone ∧
      (∃ suffix, mockWDone.answer_key = mockW.answer_key ++ suffix) :=
  ⟨rfl, (answer_key_completion_append_only mockW mockWDone rfl).2.2.2.2⟩

/-- C1 (amended): after pydantic validation and
`_ensure_complete_answer_key`, every question id has an answer entry,
and the answer-key-id set is exactly the union of the pre-existing
answer ids and the question ids.  Because the validator's orphan filter
is dead code (see `validateAnswerKey`), pre-existing answers are never
removed, so the answer-id set equals the question-id set precisely when
every pre-existing answer id already names a question. -/
theorem answer_key_ids_after_completion (m m' : MockSpec)
    (h : ensureCompleteAnswerKey (validateMockSpec m) = .ok m') :
    (∀ x, x ∈ qidsOfSections m'.sections → x ∈ answerIdsOf m'.answer_key) ∧
    (∀ x, x ∈ answerIdsOf m'.answer_key ↔
      (x ∈ answerIdsOf m.answer_key ∨ x ∈ qidsOfSections m'.sections)) := by
  unfold ensureCompleteAnswerKey at h
  split at h
  · exact absurd h (by simp)
  · next ak ex heq =>
    have hm : ({ validateMockSpec m with answer_key := ak } : MockSpec) = m' := by
      injection h
    subst hm
    have hids := ensureAnswerLoop_ids _ _ _ _ heq (fun y => Iff.rfl)
    have hqid : ∀ x, x ∈ qidsOfSections (validateMockSpec m).sections ↔
        ∃ q ∈ allQuestionsOf (validateMockSpec m).sections, q.id = x := by
      intro x
      unfold qidsOfSections
      rw [List.mem_map]
    constructor
    · intro x hx
      exact (hids x).2 (Or.inr ((hqid x).1 hx))
    · intro x
      constructor
      · intro hx
        rcases (hids x).1 hx with h1 | h1
        · exact Or.inl h1
        · exact Or.inr ((hqid x).2 h1)
      · rintro (h1 | h1)
        · exact (hids x).2 (Or.inl h1)
        · exact (hids x).2 (Or.inr ((hqid x).1 h1))

/-- C1 counterexample: `mockW` has one question `q1` and a pre-existing
answer for the unrelated id `q0`.  The validator keeps the orphan (its
filter is dead code), completion appends an entry for `q1`, and the
final answer-id set \x7bq0, q1\x7d differs from the question-id set
\x7bq1\x7d: the claimed exact correspondence fails. -/
theorem answer_key_ids_counterexample :
    ensureCompleteAnswerKey (validateMockSpec mockW) = .ok mockWDone ∧
    "q0" ∈ answerIdsOf mockWDone.answer_key ∧
    "q0" ∉ qidsOfSections mockWDone.sections :=
  ⟨rfl, by decide, by decide⟩

/-- Witness for the amended C1 at `mockW`: the final answer-id set is
the union of the pre-existing ids and the question ids, checked at both
`q0` (pre-existing orphan, kept) and `q1` (question id, added). -/
theorem answer_key_ids_after_completion_witness :
    ensureCompleteAnswerKey (validateMockSpec mockW) = .ok mockWDone ∧
    ("q0" ∈ answerIdsOf mockWDone.answer_key ↔
      ("q0" ∈ answerIdsOf mockW.answer_key ∨ "q0" ∈ qidsOfSections mockWDone.sections)) ∧
    ("q1" ∈ answerIdsOf mockWDone.answer_key ↔
      ("q1" ∈ answerIdsOf mockW.answer_key ∨ "q1" ∈ qidsOfSections mockWDone.sections)) :=
  ⟨rfl, (answer_key_ids_after_completion mockW mockWDone rfl).2 "q0",
    (answer_key_ids_after_completion mockW mockWDone rfl).2 "q1"⟩

/-! ## Helper lemmas: MCQ label normalization (C2) -/

/-- Result alphabet of the normalizer: a canonical letter or the
sentinel `None`. -/
def isAbcdOpt (r : Option String) : Prop :=
  r = none ∨ r = some "a" ∨ r = some "b" ∨ r = some "c" ∨ r = some "d"

theorem abcdLabel_is_letter {n : Nat} (h : n ≤ 3) :
    abcdLabel n = "a" ∨ abcdLabel n = "b" ∨ abcdLabel n = "c" ∨ abcdLabel n = "d" := by
  interval_cases n <;> simp [abcdLabel]

theorem matchLetterParen_isAbcd (s : List Char) : isAbcdOpt (matchLetterParen s) := by
  unfold matchLetterParen
  split
  · next l r _ =>
    split
    · next hl =>
      split
      · rcases hl with rfl | rfl | rfl | rfl
        · exact Or.inr (Or.inl rfl)
        · exact Or.inr (Or.inr (Or.inl rfl))
        · exact Or.inr (Or.inr (Or.inr (Or.inl rfl)))
        · exact Or.inr (Or.inr (Or.inr (Or.inr rfl)))
      · exact Or.inl rfl
    · exact Or.inl rfl
  · exact Or.inl rfl

theorem matchDigitParen_isAbcd (s : List Char) : isAbcdOpt (matchDigitParen s) := by
  unfold matchDigitParen
  split
  · next l r _ =>
    split
    · next hl =>
      split
      · rcases hl with rfl | rfl | rfl | rfl
        · exact Or.inr (Or.inl rfl)
        · exact Or.inr (Or.inr (Or.inl rfl))
        · exact Or.inr (Or.inr (Or.inr (Or.inl rfl)))
        · exact Or.inr (Or.inr (Or.inr (Or.inr rfl)))
      · exact Or.inl rfl
    · exact Or.inl rfl
  · exact Or.inl rfl

theorem mcqRegexFallback_isAbcd (c : List Char) : isAbcdOpt (mcqRegexFallback c) := by
  unfold mcqRegexFallback
  split
  · next l heq =>
    have := matchLetterParen_isAbcd c
    rw [heq] at this
    exact this
  · exact matchDigitParen_isAbcd c

/-- A lowercase image of an ASCII character that Python counts as a
digit is an actual decimal digit (the superscript digits are all
non-ASCII, and `Char.toLower` maps ASCII into ASCII). -/
theorem toLower_ascii_isDigit {c₀ : Char} (h : c₀.toNat < 128)
    (hd : pyCharIsDigit c₀.toLower = true) : c₀.toLower.isDigit = true := by
  have hd' : c₀.toLower.isDigit = true ∨
      c₀.toLower ∈ ['⁰', '¹', '²', '³', '⁴', '⁵', '⁶', '⁷', '⁸', '⁹'] := by
    have h2 := hd
    simp only [pyCharIsDigit, Bool.or_eq_true, decide_eq_true_iff] at h2
    exact h2
  rcases hd' with h1 | h1
  · exact h1
  · exfalso
    have hmem := h1
    simp only [Char.toLower] at hmem
    by_cases hb : 65 ≤ c₀.toNat ∧ c₀.toNat ≤ 90
    · rw [if_pos hb] at hmem
      obtain ⟨hb1, hb2⟩ := hb
      generalize hgen : c₀.toNat = n at hb1 hb2 hmem
      interval_cases n <;> exact absurd hmem (by decide)
    · rw [if_neg hb] at hmem
      fin_cases hmem <;> exact absurd h (by decide)

/-- Skipping an optional literal character only drops characters of the
input. -/
theorem skipOpt_mem {x c : Char} {s : List Char} (h : x ∈ skipOpt c s) : x ∈ s := by
  cases s with
  | nil => exact h
  | cons y r =>
    rw [skipOpt] at h
    split at h
    · exact List.mem_cons_of_mem _ h
    · exact h

/-- A successful letter-regex match pins a letter a–d inside the input
and determines the captured group. -/
theorem matchLetterParen_some {s : List Char} {l : String}
    (h : matchLetterParen s = some l) :
    ∃ lc ∈ s, (lc = 'a' ∨ lc = 'b' ∨ lc = 'c' ∨ lc = 'd') ∧ l = String.mk [lc] := by
  unfold matchLetterParen at h
  split at h
  · next lc r heq =>
    split at h
    · next hl =>
      split at h
      · refine ⟨lc, ?_, hl, ?_⟩
        · have hm : lc ∈ skipOpt '(' s := by
            rw [heq]
            exact List.mem_cons_self _ _
          exact skipOpt_mem hm
        · injection h with h
          exact h.symm
      · exact absurd h (by simp)
    · exact absurd h (by simp)
  · exact absurd h (by simp)

/-- The letter regex only matches strings containing a letter a–d, and
such a string is never all-digits. -/
theorem matchLetterParen_not_digit {s : List Char} {l : String}
    (h : matchLetterParen s = some l) : pyIsDigitStr s = false := by
  obtain ⟨lc, hmem, hletter, -⟩ := matchLetterParen_some h
  cases hd : pyIsDigitStr s
  · rfl
  · exfalso
    rw [pyIsDigitStr, Bool.and_eq_true] at hd
    have hall := List.all_eq_true.1 hd.2 lc hmem
    rcases hletter with rfl | rfl | rfl | rfl
    all_goals exact absurd hall (by decide)

/-- On an ASCII string, `isdigit` of the stripped, lowercased form
guarantees that `int` succeeds: lowercasing keeps ASCII inside ASCII,
where every `isdigit` character is a true decimal digit. -/
theorem pyIntOfDigits_isSome_of_ascii {s : String}
    (hascii : ∀ c ∈ s.data, c.toNat < 128)
    (hdig : pyIsDigitStr (pyLowerL (pyStripL s.data)) = true) :
    ∃ n, pyIntOfDigits (pyLowerL (pyStripL s.data)) = some n := by
  have hsplit : (!(pyLowerL (pyStripL s.data)).isEmpty) = true ∧
      (pyLowerL (pyStripL s.data)).all pyCharIsDigit = true := by
    have h3 := hdig
    rw [pyIsDigitStr, Bool.and_eq_true] at h3
    exact h3
  have hall : ∀ ch ∈ pyLowerL (pyStripL s.data), Char.isDigit ch = true := by
    intro ch hch
    obtain ⟨c₀, hc₀, rfl⟩ := List.mem_map.1 hch
    have hc₀s : c₀ ∈ s.data := pyStripL_subset hc₀
    have hd : pyCharIsDigit c₀.toLower = true := by
      have h2 := hsplit.2
      rw [List.all_eq_true] at h2
      exact h2 _ (List.mem_map.2 ⟨c₀, hc₀, rfl⟩)
    exact toLower_ascii_isDigit (hascii c₀ hc₀s) hd
  have hne : pyLowerL (pyStripL s.data) ≠ [] := by
    intro hnil
    have h1 := hsplit.1
    rw [hnil] at h1
    simp at h1
  rw [pyIntOfDigits, if_pos ⟨hne, List.all_eq_true.2 hall⟩]
  exact ⟨_, rfl⟩

/-! ## Claim theorems: MCQ label normalization (C2) -/

/-- ASCII-only payload (the documented input space of the normalizer is
ASCII: letters, digits, parentheses, periods, integers). -/
def asciiCorrect : Option CorrectV → Prop
  | some (.str s) => ∀ c ∈ s.data, c.toNat < 128
  | _ => True

/-- C2 counterexample: the claim says the normalizer never raises,
but on the superscript-two string `"²"` Python's `c.isdigit()` is true
while `int(c)` raises `ValueError`, so `_normalize_mcq_correct_label`
throws instead of returning the sentinel. -/
theorem mcq_normalize_crash_counterexample :
    normalizeMcqCorrectLabel (some (.str "²")) =
      .error "ValueError: invalid literal for int() with base 10" := rfl

/-- Letter outcome packaged for the totality statement. -/
theorem abcdLabel_isAbcdOpt {n : Nat} (h : n ≤ 3) : isAbcdOpt (some (abcdLabel n)) := by
  rcases abcdLabel_is_letter h with h1 | h1 | h1 | h1 <;> rw [h1]
  · exact Or.inr (Or.inl rfl)
  · exact Or.inr (Or.inr (Or.inl rfl))
  · exact Or.inr (Or.inr (Or.inr (Or.inl rfl)))
  · exact Or.inr (Or.inr (Or.inr (Or.inr rfl)))

/-- C2 (amended): on every ASCII input the normalizer is total with
values in \x7ba, b, c, d, None\x7d, never an exception.  Precisely:
integers 0–3 map 0-based and then 1–4 map 1-based to their letter, all
remaining integers to the sentinel; a string whose stripped, lowercased
form matches the letter regex (a bare or decorated letter a–d, any
case) maps to exactly that letter; an all-digit ASCII string parses and
maps 0-based for values up to 3, 1-based for 4; and every other ASCII
string — matching neither regex, with no digit value below five — maps
to the `None` sentinel.  (Non-ASCII digit-like strings such as `"²"`
make it raise, see the counterexample.) -/
theorem mcq_normalize_total_on_ascii :
    (∀ cv : Option CorrectV, asciiCorrect cv →
      ∃ r, normalizeMcqCorrectLabel cv = .ok r ∧ isAbcdOpt r) ∧
    (∀ n : Int,
      (0 ≤ n → n ≤ 3 →
        normalizeMcqCorrectLabel (some (.int n)) = .ok (some (abcdLabel n.toNat))) ∧
      (¬(0 ≤ n ∧ n ≤ 3) → 1 ≤ n → n ≤ 4 →
        normalizeMcqCorrectLabel (some (.int n)) = .ok (some (abcdLabel (n - 1).toNat))) ∧
      (¬(0 ≤ n ∧ n ≤ 3) → ¬(1 ≤ n ∧ n ≤ 4) →
        normalizeMcqCorrectLabel (some (.int n)) = .ok none)) ∧
    (∀ (s : String) (l : String),
      matchLetterParen (pyLowerL (pyStripL s.data)) = some l →
      normalizeMcqCorrectLabel (some (.str s)) = .ok (some l)) ∧
    (∀ s : String, (∀ c ∈ s.data, c.toNat < 128) →
      pyIsDigitStr (pyLowerL (pyStripL s.data)) = true →
      ∃ n, pyIntOfDigits (pyLowerL (pyStripL s.data)) = some n ∧
        (n ≤ 3 → normalizeMcqCorrectLabel (some (.str s)) = .ok (some (abcdLabel n))) ∧
        (n = 4 → normalizeMcqCorrectLabel (some (.str s)) = .ok (some "d"))) ∧
    (∀ s : String, (∀ c ∈ s.data, c.toNat < 128) →
      matchLetterParen (pyLowerL (pyStripL s.data)) = none →
      matchDigitParen (pyLowerL (pyStripL s.data)) = none →
      (∀ n, pyIntOfDigits (pyLowerL (pyStripL s.data)) = some n → 5 ≤ n) →
      normalizeMcqCorrectLabel (some (.str s)) = .ok none) := by
  refine ⟨?_, ?_, ?_, ?_, ?_⟩
  · intro cv hascii
    match cv with
    | none => exact ⟨none, rfl, Or.inl rfl⟩
    | some (.int n) =>
      rw [normalizeMcqCorrectLabel]
      split
      · next hn => exact ⟨some (abcdLabel n.toNat), rfl, abcdLabel_isAbcdOpt (by omega)⟩
      · split
        · next hn =>
          exact ⟨some (abcdLabel (n - 1).toNat), rfl, abcdLabel_isAbcdOpt (by omega)⟩
        · exact ⟨none, rfl, Or.inl rfl⟩
    | some (.str s0) =>
      simp only [normalizeMcqCorrectLabel]
      split
      · next hc =>
        refine ⟨some (String.mk (pyLowerL (pyStripL s0.data))), rfl, Or.inr ?_⟩
        rcases hc with h | h | h | h <;> rw [h]
        · exact Or.inl rfl
        · exact Or.inr (Or.inl rfl)
        · exact Or.inr (Or.inr (Or.inl rfl))
        · exact Or.inr (Or.inr (Or.inr rfl))
      · split
        · next hdig =>
          obtain ⟨nv, hnv⟩ := pyIntOfDigits_isSome_of_ascii hascii hdig
          rw [hnv]
          split
          · next heq => exact absurd heq (by simp)
          · rename_i n2 heq
            obtain rfl : nv = n2 := by injection heq
            split
            · next hle => exact ⟨some (abcdLabel nv), rfl, abcdLabel_isAbcdOpt hle⟩
            · split
              · next hle =>
                exact ⟨some (abcdLabel (nv - 1)), rfl, abcdLabel_isAbcdOpt (by omega)⟩
              · exact ⟨mcqRegexFallback _, rfl, mcqRegexFallback_isAbcd _⟩
        · exact ⟨mcqRegexFallback _, rfl, mcqRegexFallback_isAbcd _⟩
  · intro n
    refine ⟨?_, ?_, ?_⟩
    · intro h0 h3
      rw [normalizeMcqCorrectLabel, if_pos ⟨h0, h3⟩]
    · intro hn03 h1 h4
      rw [normalizeMcqCorrectLabel, if_neg hn03, if_pos ⟨h1, h4⟩]
    · intro hn03 hn14
      rw [normalizeMcqCorrectLabel, if_neg hn03, if_neg hn14]
  · intro s l hm
    have hnd := matchLetterParen_not_digit hm
    simp only [normalizeMcqCorrectLabel]
    split
    · next hc =>
      rcases hc with hc | hc | hc | hc
      · rw [hc] at hm
        rw [show matchLetterParen ['a'] = some "a" from rfl] at hm
        injection hm with hm
        rw [hc, ← hm]
      · rw [hc] at hm
        rw [show matchLetterParen ['b'] = some "b" from rfl] at hm
        injection hm with hm
        rw [hc, ← hm]
      · rw [hc] at hm
        rw [show matchLetterParen ['c'] = some "c" from rfl] at hm
        injection hm with hm
        rw [hc, ← hm]
      · rw [hc] at hm
        rw [show matchLetterParen ['d'] = some "d" from rfl] at hm
        injection hm with hm
        rw [hc, ← hm]
    · rw [if_neg (by rw [hnd]; exact Bool.false_ne_true)]
      have hfb : mcqRegexFallback (pyLowerL (pyStripL s.data)) = some l := by
        unfold mcqRegexFallback
        rw [hm]
      rw [hfb]
  · intro s hascii hdig
    obtain ⟨n, hn⟩ := pyIntOfDigits_isSome_of_ascii hascii hdig
    have hnl : ¬(pyLowerL (pyStripL s.data) = ['a'] ∨ pyLowerL (pyStripL s.data) = ['b'] ∨
        pyLowerL (pyStripL s.data) = ['c'] ∨ pyLowerL (pyStripL s.data) = ['d']) := by
      rintro (hc | hc | hc | hc)
      all_goals rw [hc] at hdig
      all_goals exact absurd hdig (by decide)
    refine ⟨n, hn, ?_, ?_⟩
    · intro hle
      simp only [normalizeMcqCorrectLabel]
      rw [if_neg hnl, if_pos hdig, hn]
      split
      · next heq => exact absurd heq (by simp)
      · rename_i n2 heq
        obtain rfl : n = n2 := by injection heq
        rw [if_pos hle]
    · intro h4
      subst h4
      simp only [normalizeMcqCorrectLabel]
      rw [if_neg hnl, if_pos hdig, hn]
      split
      · next heq => exact absurd heq (by simp)
      · rename_i n2 heq
        obtain rfl : (4 : Nat) = n2 := by injection heq
        rw [if_neg (by omega), if_pos (by omega)]
        rfl
  · intro s hascii hlet hdigp hbig
    have hnl : ¬(pyLowerL (pyStripL s.data) = ['a'] ∨ pyLowerL (pyStripL s.data) = ['b'] ∨
        pyLowerL (pyStripL s.data) = ['c'] ∨ pyLowerL (pyStripL s.data) = ['d']) := by
      rintro (hc | hc | hc | hc)
      all_goals rw [hc] at hlet
      all_goals exact absurd hlet (by decide)
    have hfb : mcqRegexFallback (pyLowerL (pyStripL s.data)) = none := by
      unfold mcqRegexFallback
      rw [hlet, hdigp]
    simp only [normalizeMcqCorrectLabel]
    rw [if_neg hnl]
    cases hd : pyIsDigitStr (pyLowerL (pyStripL s.data))
    · rw [if_neg Bool.false_ne_true, hfb]
    · rw [if_pos rfl]
      obtain ⟨n, hn⟩ := pyIntOfDigits_isSome_of_ascii hascii hd
      have h5 := hbig n hn
      rw [hn]
      split
      · next heq => exact absurd heq (by simp)
      · rename_i n2 heq
        obtain rfl : n = n2 := by injection heq
        rw [if_neg (by omega), if_neg (by omega), hfb]

/-- Witness for the amended C2: the decorated letter `"(B). "` maps to
exactly `"b"`, the digit string `" 3 "` parses and maps 0-based to
`"d"`, and the letter-free, digit-free `"zz"` maps to the sentinel. -/
theorem mcq_normalize_total_on_ascii_witness :
    (matchLetterParen (pyLowerL (pyStripL "(B). ".data)) = some "b" ∧
      normalizeMcqCorrectLabel (some (.str "(B). ")) = .ok (some "b")) ∧
    normalizeMcqCorrectLabel (some (.str " 3 ")) = .ok (some "d") ∧
    normalizeMcqCorrectLabel (some (.str "zz")) = .ok none := by
  refine ⟨⟨rfl, mcq_normalize_total_on_ascii.2.2.1 "(B). " "b" rfl⟩, ?_, ?_⟩
  · obtain ⟨n, hn, h3, -⟩ := mcq_normalize_total_on_ascii.2.2.2.1 " 3 "
      (by decide) rfl
    have hn3 : n = 3 := by
      rw [show pyIntOfDigits (pyLowerL (pyStripL " 3 ".data)) = some 3 from rfl] at hn
      injection hn with hn
      exact hn.symm
    subst hn3
    exact h3 (by decide)
  · refine mcq_normalize_total_on_ascii.2.2.2.2 "zz" (by decide) rfl rfl ?_
    intro n hn
    rw [show pyIntOfDigits (pyLowerL (pyStripL "zz".data)) = none from rfl] at hn
    exact Option.noConfusion hn

/-! ## `llm_mockgen.normalize_unicode_math` and the spec renderer -/

def isHexDigitChar (c : Char) : Bool :=
  c.isDigit || ('a' ≤ c && c ≤ 'f') || ('A' ≤ c && c ≤ 'F')

def hexVal (c : Char) : Nat :=
  if c.isDigit then c.toNat - 48
  else if 'a' ≤ c && c ≤ 'f' then c.toNat - 87
  else c.toNat - 55

/-- Model of `decode_unicode_escapes`: `re.sub(r"U\+([0-9A-Fa-f]{4,6})", chr, ·)`.
Greedily takes up to six hex digits (at least four); a codepoint `chr`
rejects (above `0x10FFFF`) keeps the matched text.  Fuel recursion as in
`pyReplaceFuel`.  (Surrogate codepoints are not representable in a Lean
`Char`; for them the model also keeps the escape text, where Python
would emit the lone surrogate — no input considered contains one.) -/
def decodeEscapesFuel : Nat → List Char → List Char
  | _, [] => []
  | 0, s => s
  | fuel + 1, c :: rest =>
    if c = 'U' then
      match rest with
      | '+' :: rest2 =>
        let hex := (rest2.takeWhile isHexDigitChar).take 6
        if 4 ≤ hex.length then
          let n := hex.foldl (fun acc d => acc * 16 + hexVal d) 0
          if n < 0xD800 ∨ (0xDFFF < n ∧ n < 0x110000) then
            Char.ofNat n :: decodeEscapesFuel fuel (rest2.drop hex.length)
          else
            'U' :: '+' :: (hex ++ decodeEscapesFuel fuel (rest2.drop hex.length))
        else c :: decodeEscapesFuel fuel rest
      | _ => c :: decodeEscapesFuel fuel rest
    else c :: decodeEscapesFuel fuel rest

def decodeUnicodeEscapesL (s : List Char) : List Char :=
  decodeEscapesFuel s.length s

/-- The per-character body of `normalize_unicode_math`: the
`replacements` dict, then printable ASCII, the math-operator block,
Greek lower and upper case, else the `"*"` fallback.  (The preceding
NFKD normalization and combining-mark stripping are omitted: they are
the identity on ASCII text and on the kept math symbols, which is all
the inputs modelled here contain.) -/
def umChar (c : Char) : Char :=
  if c = '·' ∨ c = '×' then '*'
  else if c = '÷' ∨ c = '⁄' then '/'
  else if c = '–' ∨ c = '−' ∨ c = '—' then '-'
  else if c ∈ ['π', 'θ', 'α', 'β', 'Δ', 'δ', '√', '∑', '∫', '∞'] then c
  else if c ∈ ['■', '▮', '█', '▪', '▫', '◼', '◾', '◽'] then '*'
  else if 32 ≤ c.toNat ∧ c.toNat < 127 then c
  else if 0x2200 ≤ c.toNat ∧ c.toNat ≤ 0x22FF then c
  else if 0x03B1 ≤ c.toNat ∧ c.toNat ≤ 0x03C9 then c
  else if 0x0391 ≤ c.toNat ∧ c.toNat ≤ 0x03A9 then c
  else '*'

/-- Model of `llm_mockgen.normalize_unicode_math`. -/
def normalizeUnicodeMath (s : String) : String :=
  ⟨(decodeUnicodeEscapesL s.data).map umChar⟩

/-- Does the (caseless) word `answer`/`correct` followed by `\s*:` start
here?  This is where `re.sub(r"(Answer\s*:.*|Correct\s*:.*)$", "", ·)`
begins deleting (its `.*$` then eats the rest of the single-line
input). -/
def startsCaseless : List Char → List Char → Bool
  | [], _ => true
  | _ :: _, [] => false
  | p :: ps, c :: cs => (c.toLower = p) && startsCaseless ps cs

def wsColon (s : List Char) : Bool :=
  match s.dropWhile pyIsSpace with
  | ':' :: _ => true
  | _ => false

def answerTagAt (s : List Char) : Bool :=
  (startsCaseless ['a', 'n', 's', 'w', 'e', 'r'] s && wsColon (s.drop 6)) ||
  (startsCaseless ['c', 'o', 'r', 'r', 'e', 'c', 't'] s && wsColon (s.drop 7))

/-- Delete from the leftmost `Answer:`/`Correct:` tag to the end of the
(newline-free) question line, as the renderer's `re.sub` does. -/
def stripAnswerSuffixL : List Char → List Char
  | [] => []
  | c :: rest =>
    if answerTagAt (c :: rest) then []
    else c :: stripAnswerSuffixL rest

def stripAnswerSuffix (s : String) : String :=
  pyStrip ⟨stripAnswerSuffixL s.data⟩

/-- Model of `f" ({q.marks} marks)" if q.marks else ""` — `0` and `None` are
falsy. -/
def marksStr : Option Int → String
  | some n => if n ≠ 0 then " (" ++ toString n ++ " marks)" else ""
  | none => ""

/-- The lines `_render_spec_to_text` appends for one question: the
cleaned question line, then (for truthy options) the first four options,
then a blank line. -/
def renderQuestionLines (q : Question) : List String :=
  [stripAnswerSuffix (normalizeUnicodeMath (q.id ++ ". " ++ q.text ++ marksStr q.marks))] ++
  (match q.options with
   | some (o :: os) => (((o :: os).take 4)).map normalizeUnicodeMath
   | _ => []) ++
  [""]

def renderSectionLines (idx : Nat) (sec : Section) : List String :=
  [normalizeUnicodeMath (toString idx ++ ". " ++ sec.title)] ++
  (sec.questions.map renderQuestionLines).flatten ++ [""]

def renderSectionsLines : Nat → List Section → List String
  | _, [] => []
  | i, sec :: rest => renderSectionLines i sec ++ renderSectionsLines (i + 1) rest

/-- The `paper_lines` built by `_render_spec_to_text` (title and
instructions when truthy, then the numbered sections). -/
def renderPaperLines (m : MockSpec) : List String :=
  (if m.title ≠ "" then [normalizeUnicodeMath m.title, ""] else []) ++
  (match m.instructions with
   | some ins => if ins ≠ "" then [normalizeUnicodeMath ins, ""] else []
   | none => []) ++
  renderSectionsLines 1 m.sections

/-- The `ans_lines` built by `_render_spec_to_text`. -/
def renderAnswerLines (m : MockSpec) : List String :=
  ["Answer Key"] ++
  (m.answer_key.map (fun a =>
    [a.id ++ ": " ++ normalizeUnicodeMath a.answer] ++
    (match a.workings with
     | some w => if w ≠ "" then [normalizeUnicodeMath w] else []
     | none => []) ++ [""])).flatten

/-- Model of `llm_mockgen._render_spec_to_text`: the spec is re-validated
(`MockSpec.model_validate`) and rendered to the
`(paper_text, answer_text)` pair. -/
def renderSpecToText (m : MockSpec) : String × String :=
  let v := validateMockSpec m
  (pyStrip (String.intercalate "\n" (renderPaperLines v)),
   pyStrip (String.intercalate "\n" (renderAnswerLines v)))

/-! ## Claim theorems: MCQ option rendering (C8) -/

/-- The option-line pattern `^[a-d]\.` (case-insensitive) that
`pdf_builder.build_mockpaper_pdf` applies to each stripped line to
recognize an option block. -/
def isOptionLine (s : String) : Bool :=
  match s.data with
  | c1 :: '.' :: _ =>
    c1 = 'a' || c1 = 'b' || c1 = 'c' || c1 = 'd' ||
    c1 = 'A' || c1 = 'B' || c1 = 'C' || c1 = 'D'
  | _ => false

def countOptionLinesL (ls : List String) : Nat :=
  (ls.filter (fun l => isOptionLine (pyStrip l))).length

/-- Python `str.split("\n")` (keeps empty pieces). -/
def splitNl : List Char → List (List Char)
  | [] => [[]]
  | '\n' :: rest => [] :: splitNl rest
  | c :: rest =>
    match splitNl rest with
    | [] => [[c]]
    | l :: ls => (c :: l) :: ls

/-- Option lines of a rendered text, line by line as the PDF builder
reads them. -/
def countOptionLines (s : String) : Nat :=
  countOptionLinesL ((splitNl s.data).map String.mk)

/-- Concrete spec for C8: an MCQ with only two options. -/
def mcqSpec2 : MockSpec :=
  { title := "Mock Exam Paper", instructions := none,
    sections := [⟨"S",
      [⟨"q1", "mcq", none, "Pick one", some ["a. foo", "b. bar"], some (.str "a"), none⟩]⟩],
    answer_key := [⟨"q1", "a", none⟩], assets := [] }

/-- C8 counterexample: a multiple-choice question with two options
renders exactly two option lines — the renderer caps at four but never
pads up to four. -/
theorem mcq_render_options_counterexample :
    (renderSpecToText mcqSpec2).1 = "Mock Exam Paper\n\n1. S\nq1. Pick one\na. foo\nb. bar" ∧
    countOptionLines (renderSpecToText mcqSpec2).1 = 2 := ⟨rfl, rfl⟩

/-- C8 (amended): for a multiple-choice question the renderer emits
`min 4 k` option lines where `k` is the number of (validated) options:
lists longer than four are capped to the first four, and shorter lists
are rendered as-is, not padded.  Stated for a one-section, one-question
spec whose non-option lines do not themselves look like option lines. -/
theorem mcq_render_caps_not_pads
    (title sectitle qid qtext : String) (marks : Option Int) (corr : Option CorrectV)
    (opts : List String)
    (hopts : stripEmptyOptions (some opts) = some opts) (hne : opts ≠ [])
    (hshape : ∀ o ∈ opts, isOptionLine (pyStrip (normalizeUnicodeMath o)) = true)
    (htitle : isOptionLine (pyStrip (normalizeUnicodeMath title)) = false)
    (hsec : isOptionLine (pyStrip (normalizeUnicodeMath (toString (1 : Nat) ++ ". " ++ sectitle))) = false)
    (hq : isOptionLine (pyStrip (stripAnswerSuffix
      (normalizeUnicodeMath (qid ++ ". " ++ qtext ++ marksStr marks)))) = false) :
    countOptionLinesL (renderPaperLines (validateMockSpec
      ⟨title, none, [⟨sectitle, [⟨qid, "mcq", marks, qtext, some opts, corr, none⟩]⟩], [], []⟩)) =
      min 4 opts.length := by
  obtain ⟨o, os, rfl⟩ : ∃ o os, opts = o :: os := by
    cases opts with
    | nil => exact absurd rfl hne
    | cons o os => exact ⟨o, os, rfl⟩
  have hfilter : ((((o :: os).take 4).map normalizeUnicodeMath).filter
      (fun l => isOptionLine (pyStrip l))) = ((o :: os).take 4).map normalizeUnicodeMath := by
    apply List.filter_eq_self.2
    intro x hx
    obtain ⟨y, hy, rfl⟩ := List.mem_map.1 hx
    exact hshape y (List.mem_of_mem_take hy)
  unfold validateMockSpec validateSection validateQuestion renderPaperLines
    renderSectionsLines renderSectionLines renderQuestionLines countOptionLinesL
  simp only [List.map_cons, List.map_nil, hopts, List.flatten_cons, List.flatten_nil,
    List.append_nil, List.nil_append, List.filter_append, List.length_append]
  rw [hfilter]
  have hblank : isOptionLine (pyStrip "") = false := by decide
  by_cases ht : title = ""
  · subst ht
    simp [renderSectionsLines, List.length_take, List.filter_cons, htitle, hsec, hq, hblank]
    omega
  · simp [renderSectionsLines, List.length_take, List.filter_cons, ht, htitle, hsec, hq, hblank]
    omega

/-- Witness for the amended C8 at a five-option MCQ: exactly four option
lines are rendered (`min 4 5`). -/
theorem mcq_render_caps_not_pads_witness :
    countOptionLinesL (renderPaperLines (validateMockSpec
      ⟨"Paper", none, [⟨"Algebra",
        [⟨"q1", "mcq", none, "Pick", some ["a. 1", "b. 2", "c. 3", "d. 4", "a. 5"],
          none, none⟩]⟩], [], []⟩)) = 4 :=
  mcq_render_caps_not_pads "Paper" "Algebra" "q1" "Pick" none none
    ["a. 1", "b. 2", "c. 3", "d. 4", "a. 5"]
    (by decide) (by decide) (by decide) (by decide) (by decide) (by decide)

/-! ## `generate_mock_specs` / `generate_mock_papers` (C3) -/

/-- Python list slicing `l[:n]`, including the negative-index case. -/
def pySliceTo {α : Type} (l : List α) (n : Int) : List α :=
  if 0 ≤ n then l.take n.toNat else l.take (l.length - (-n).toNat)

/-- The clamp `max(1, min(num_mocks, 3))` used by the generation
entry points. -/
def pyClamp (n : Int) : Int :=
  max 1 (min n 3)

/-- The placeholder `MockSpec(sections=[Section(title="Section 1",
questions=[])], answer_key=[])` used to pad missing variants (the
pydantic field defaults fill in title, instructions and assets). -/
def emptyMockSpec : MockSpec :=
  { title := "Mock Exam Paper", instructions := none,
    sections := [⟨"Section 1", []⟩], answer_key := [], assets := [] }

/-- Model of `for m in mocks: _ensure_complete_answer_key(m)` — the first
exception aborts the loop and propagates. -/
def ensureAll : List MockSpec → Except String (List MockSpec)
  | [] => .ok []
  | m :: rest =>
    match ensureCompleteAnswerKey m with
    | .error e => .error e
    | .ok m' =>
      match ensureAll rest with
      | .error e => .error e
      | .ok rest' => .ok (m' :: rest')

/-- The `while len(mocks) < num_mocks: mocks.append(empty)` padding. -/
def padMocks (mocks : List MockSpec) (n : Nat) : List MockSpec :=
  mocks ++ List.replicate (n - mocks.length) emptyMockSpec

/-- Completion of the placeholder is a no-op (it has no questions), so
the padding loop's `_ensure_complete_answer_key(empty)` call is modelled
away. -/
theorem ensureCompleteAnswerKey_empty : ensureCompleteAnswerKey emptyMockSpec = .ok emptyMockSpec := rfl

/-- Model of `generate_mock_specs` after the service call: `mockset` models the
parsed and schema-validated `MockSet.mocks` payload.  The count is
clamped to [1,3] up front, every spec gets answer-key completion (an
exception propagates to the caller), missing variants are padded with
placeholder specs, and the clamped count is sliced off. -/
def generateMockSpecsCore (mockset : List MockSpec) (numMocks : Int) :
    Except String (List MockSpec) :=
  let n := pyClamp numMocks
  match ensureAll (mockset.map validateMockSpec) with
  | .error e => .error e
  | .ok mocks => .ok (pySliceTo (padMocks mocks n.toNat) n)

/-- Python `str.splitlines` (no trailing empty piece for a trailing
line break; `""` gives no lines). -/
def splitLinesPy : List Char → List (List Char)
  | [] => []
  | '\r' :: '\n' :: rest => [] :: splitLinesPy rest
  | '\n' :: rest => [] :: splitLinesPy rest
  | '\r' :: rest => [] :: splitLinesPy rest
  | c :: rest =>
    match splitLinesPy rest with
    | [] => [[c]]
    | l :: ls => (c :: l) :: ls

def startsWithL (pre s : List Char) : Bool :=
  pre.isPrefixOf s

/-- The line loop of `generate_mock_papers`'s legacy fallback: scan for
`### mock paper` / `### answer key` delimiters, buffering normalized
lines into the current paper or answer text. -/
def legacyLoop :
    List (List Char) → List String → List String → Option Bool → List (String × String)
  | [], curP, curA, _ =>
    if curP ≠ [] ∨ curA ≠ [] then
      [(pyStrip (String.intercalate "\n" curP), pyStrip (String.intercalate "\n" curA))]
    else []
  | line :: rest, curP, curA, mode =>
    let tag := pyLowerL (pyStripL line)
    if startsWithL ['#', '#', '#', ' ', 'm', 'o', 'c', 'k', ' ', 'p', 'a', 'p', 'e', 'r'] tag then
      (if curP ≠ [] ∨ curA ≠ [] then
        [(pyStrip (String.intercalate "\n" curP), pyStrip (String.intercalate "\n" curA))]
       else []) ++ legacyLoop rest [] [] (some true)
    else if startsWithL ['#', '#', '#', ' ', 'a', 'n', 's', 'w', 'e', 'r', ' ', 'k', 'e', 'y'] tag then
      legacyLoop rest curP curA (some false)
    else
      match mode with
      | some true => legacyLoop rest (curP ++ [normalizeUnicodeMath ⟨line⟩]) curA mode
      | some false => legacyLoop rest curP (curA ++ [normalizeUnicodeMath ⟨line⟩]) mode
      | none => legacyLoop rest curP curA mode

/-- The legacy fallback of `generate_mock_papers`: parse the stripped
response by delimiters, pad with `("", "")` pairs up to the clamp, then
slice with the UNclamped `num_mocks`. -/
def legacyFallback (raw : String) (numMocks : Int) : List (String × String) :=
  let outputs := legacyLoop (splitLinesPy (pyStripL raw.data)) [] [] none
  let padded := outputs ++ List.replicate ((pyClamp numMocks).toNat - outputs.length) ("", "")
  pySliceTo padded numMocks

/-- Model of `generate_mock_papers`: render the structured specs when the whole
structured path succeeds, otherwise run the legacy fallback.
`structured` models the parsed `MockSet.mocks` (or any
transport/parse/validation failure as `.error`); `legacyRaw` models the
fallback response text. -/
def generateMockPapers (structured : Except String (List MockSpec)) (legacyRaw : String)
    (numMocks : Int) : List (String × String) :=
  match (match structured with
         | .error e => (.error e : Except String (List MockSpec))
         | .ok mockset => generateMockSpecsCore mockset numMocks) with
  | .ok specs => specs.map renderSpecToText
  | .error _ => legacyFallback legacyRaw numMocks

/-! ## Claim theorems: variant count (C3) -/

/-- C3 counterexample: with a failing structured path and an empty
fallback response, requesting `num_mocks = 0` returns zero pairs, while
the claim demands `clamp(0, 1, 3) = 1` pair — the fallback's final
`outputs[:num_mocks]` slice uses the unclamped count. -/
theorem variant_count_counterexample :
    generateMockPapers (.error "transport error") "" 0 = [] ∧
    pyClamp 0 = 1 ∧
    (generateMockPapers (.error "transport error") "" 0).length = 0 :=
  ⟨rfl, rfl, rfl⟩

/-- C3 (amended): the structured path always returns exactly
`clamp(num_mocks, 1, 3)` rendered pairs (padding with placeholder
specs); the legacy fallback pads with `("", "")` pairs and returns
exactly the clamped count only when `1 ≤ num_mocks ≤ 3` — outside that
range it can return fewer (`num_mocks ≤ 0`) or more (`num_mocks > 3`)
pairs than the clamp. -/
theorem variant_count_clamped :
    (∀ (mockset : List MockSpec) (raw : String) (n : Int) (specs : List MockSpec),
      generateMockSpecsCore mockset n = .ok specs →
      (generateMockPapers (.ok mockset) raw n).length = (pyClamp n).toNat) ∧
    (∀ (raw : String) (n : Int), 1 ≤ n → n ≤ 3 →
      (legacyFallback raw n).length = n.toNat) ∧
    (∀ (e raw : String) (n : Int),
      generateMockPapers (.error e) raw n = legacyFallback raw n) := by
  have hclamp_pos : ∀ n : Int, 1 ≤ pyClamp n := by
    intro n
    unfold pyClamp
    exact le_max_left 1 _
  have hcore : ∀ (mockset : List MockSpec) (n : Int) (specs : List MockSpec),
      generateMockSpecsCore mockset n = .ok specs → specs.length = (pyClamp n).toNat := by
    intro mockset n specs h
    unfold generateMockSpecsCore at h
    split at h
    · exact absurd h (by simp)
    · next mocks heq =>
      have hspecs : specs = pySliceTo (padMocks mocks (pyClamp n).toNat) (pyClamp n) := by
        injection h with h
        exact h.symm
      subst hspecs
      unfold pySliceTo padMocks
      rw [if_pos (by linarith [hclamp_pos n])]
      rw [List.length_take, List.length_append, List.length_replicate]
      omega
  refine ⟨?_, ?_, ?_⟩
  · intro mockset raw n specs h
    have hred : generateMockPapers (.ok mockset) raw n =
        match generateMockSpecsCore mockset n with
        | .ok specs => specs.map renderSpecToText
        | .error _ => legacyFallback raw n := rfl
    rw [hred, h]
    rw [List.length_map]
    exact hcore mockset n specs h
  · intro raw n h1 h3
    unfold legacyFallback pySliceTo
    have hc : pyClamp n = n := by
      unfold pyClamp
      omega
    rw [if_pos (by omega)]
    rw [List.length_take, List.length_append, List.length_replicate, hc]
    omega
  · intro e raw n
    rfl

/-- Witness for the amended C3: an empty structured payload at
`num_mocks = 2` yields two placeholder pairs, and the fallback at
`num_mocks = 2` also yields two pairs. -/
theorem variant_count_clamped_witness :
    (generateMockPapers (.ok []) "" 2).length = (pyClamp 2).toNat ∧
    (legacyFallback "### MOCK PAPER 1\nQ1. hi\n### ANSWER KEY 1\nq1: a" 2).length = (2 : Int).toNat :=
  ⟨variant_count_clamped.1 [] "" 2 [emptyMockSpec, emptyMockSpec] rfl,
   variant_count_clamped.2.1 "### MOCK PAPER 1\nQ1. hi\n### ANSWER KEY 1\nq1: a" 2
     (by norm_num) (by norm_num)⟩

/-! ## `papers_to_clean_text` / `run_pipeline_end_to_end` (C4) -/

/-- The text `papers_to_clean_text` writes to `reference_concat.txt`:
documents whose extracted text strips to empty are dropped with a
warning, the rest joined by blank lines and stripped; when nothing at
all survives, `concat_plain or "[EMPTY DOCUMENT: No text extracted]"`
writes the placeholder.  `perDocText` models the per-document extraction
results. -/
def papersToCleanTextCore (perDocText : List String) : String :=
  if pyStrip (String.intercalate "\n\n" (perDocText.filter (fun t => pyStrip t ≠ ""))) = "" then
    "[EMPTY DOCUMENT: No text extracted]"
  else
    pyStrip (String.intercalate "\n\n" (perDocText.filter (fun t => pyStrip t ≠ "")))

/-- The extraction stage of `run_pipeline_end_to_end`: read
`reference_concat.txt` back; raise `ValueError("No text extracted from
uploaded documents.")` when it strips to empty; otherwise pass the text
on to `generate_mock_papers`. -/
def pipelineReferenceText (perDocText : List String) : Except String String :=
  if pyStrip (papersToCleanTextCore perDocText) = "" then
    .error "No text extracted from uploaded documents."
  else .ok (papersToCleanTextCore perDocText)

theorem dropWhile_head_not {p : Char → Bool} :
    ∀ (l : List Char) (c : Char) (cs : List Char),
      l.dropWhile p = c :: cs → p c = false := by
  intro l
  induction l with
  | nil => intro c cs h; simp at h
  | cons x xs ih =>
    intro c cs h
    rw [List.dropWhile_cons] at h
    split at h
    · exact ih c cs h
    · next hx =>
      cases h
      exact Bool.not_eq_true _ ▸ Bool.of_not_eq_true hx

theorem dropTrailingWs_head :
    ∀ (l : List Char) (c : Char) (cs : List Char),
      dropTrailingWs l = c :: cs → ∃ cs', l = c :: cs' := by
  intro l
  cases l with
  | nil => intro c cs h; simp [dropTrailingWs] at h
  | cons x xs =>
    intro c cs h
    rw [dropTrailingWs] at h
    cases hx : dropTrailingWs xs with
    | nil =>
      rw [hx] at h
      by_cases hsp : pyIsSpace x = true
      · simp [hsp] at h
      · simp [hsp] at h
        exact ⟨xs, by rw [h.1]⟩
    | cons r rs =>
      rw [hx] at h
      cases h
      exact ⟨xs, rfl⟩

theorem dropTrailingWs_cons_ne_nil {c : Char} {cs : List Char}
    (h : pyIsSpace c = false) : dropTrailingWs (c :: cs) ≠ [] := by
  rw [dropTrailingWs]
  cases hx : dropTrailingWs cs with
  | nil => simp [h]
  | cons r rs => simp

/-- Stripping an already-stripped non-empty string cannot empty it: the
first character of a stripped string is non-whitespace. -/
theorem pyStripL_of_pyStripL_ne_nil {l : List Char} (h : pyStripL l ≠ []) :
    pyStripL (pyStripL l) ≠ [] := by
  cases hs : pyStripL l with
  | nil => exact absurd hs h
  | cons c cs =>
    have hc : pyIsSpace c = false := by
      unfold pyStripL at hs
      obtain ⟨cs', hcs'⟩ := dropTrailingWs_head _ _ _ hs
      exact dropWhile_head_not _ c cs' hcs'
    unfold pyStripL
    rw [List.dropWhile_cons, hc]
    simp only [Bool.false_eq_true, reduceIte]
    exact dropTrailingWs_cons_ne_nil hc

theorem pyStrip_pyStrip_ne_empty {s : String} (h : pyStrip s ≠ "") :
    pyStrip (pyStrip s) ≠ "" := by
  intro hempty
  apply h
  by_cases hz : pyStripL s.data = []
  · show (⟨pyStripL s.data⟩ : String) = ""
    rw [hz]
  · exfalso
    apply pyStripL_of_pyStripL_ne_nil hz
    have h2 : (pyStrip (pyStrip s)).data = [] := by
      rw [hempty]
    exact h2

theorem papersToCleanTextCore_strip_ne (docs : List String) :
    pyStrip (papersToCleanTextCore docs) ≠ "" := by
  unfold papersToCleanTextCore
  split
  · decide
  · next hc => exact pyStrip_pyStrip_ne_empty hc

/-- C4 (code bug): when extraction yields no text at all, the
pipeline does NOT fail — `papers_to_clean_text` writes the non-empty
`[EMPTY DOCUMENT]` placeholder, so the orchestrator's
`ValueError("No text extracted from uploaded documents.")` guard never
fires and generation is invoked with the placeholder text.  The guard
is in fact dead code for every input. -/
theorem pipeline_empty_extraction_reaches_generation :
    pipelineReferenceText [""] = .ok "[EMPTY DOCUMENT: No text extracted]" ∧
    (∀ perDocText : List String,
      pipelineReferenceText perDocText = .ok (papersToCleanTextCore perDocText)) := by
  constructor
  · rfl
  · intro docs
    unfold pipelineReferenceText
    rw [if_neg (papersToCleanTextCore_strip_ne docs)]

/-! ## `mock_export._group_lines_into_html` (C7) -/

/-- Model of `html.escape` (with its default quoting). -/
def htmlEscapeChar (c : Char) : List Char :=
  if c = '&' then "&amp;".data
  else if c = '<' then "&lt;".data
  else if c = '>' then "&gt;".data
  else if c = '"' then "&quot;".data
  else if c = '\x27' then "&#x27;".data
  else [c]

def htmlEscape (s : String) : String :=
  ⟨(s.data.map htmlEscapeChar).flatten⟩

/-- Model of `mock_export._mk_md`'s fallback renderer (`_Dummy.render`):
`html.escape(s).replace("\n", "<br/>")`.  The theorems below are
parameterized over an arbitrary renderer, covering the markdown-it path
as well; this concrete one is used for evaluation. -/
def dummyRender (s : String) : String :=
  ⟨pyReplace (htmlEscape s).data ['\n'] "<br/>".data⟩

def isWordChar (c : Char) : Bool :=
  c.isAlpha || c.isDigit || c = '_'

/-- Model of `_SEC_RE = ^\s*section\b` (case-insensitive), as a prefix match. -/
def secMatch (s : List Char) : Bool :=
  let s1 := s.dropWhile pyIsSpace
  startsCaseless ['s', 'e', 'c', 't', 'i', 'o', 'n'] s1 &&
  (match s1.drop 7 with
   | [] => true
   | c :: _ => !isWordChar c)

/-- Model of `_OPT_RE = ^\s*([A-Da-d])[\.\)]\s+(.+)`: the uppercased key and the
text group.  `\s+(.+)` is greedy with one backtrack step when the line
ends in whitespace (`.` also matches a space; the lines fed in are
stripped, so the backtrack arm is never live in practice). -/
def optMatch (s : List Char) : Option (Char × String) :=
  match s.dropWhile pyIsSpace with
  | c :: d :: rest2 =>
    if (c = 'A' ∨ c = 'B' ∨ c = 'C' ∨ c = 'D' ∨
        c = 'a' ∨ c = 'b' ∨ c = 'c' ∨ c = 'd') ∧ (d = '.' ∨ d = ')') then
      let k := (rest2.takeWhile pyIsSpace).length
      if k = 0 then none
      else if rest2.drop k ≠ [] then some (c.toUpper, ⟨rest2.drop k⟩)
      else if 2 ≤ k then some (c.toUpper, ⟨rest2.drop (k - 1)⟩)
      else none
    else none
  | _ => none

/-- Model of `_Q_RE = ^\s*((?:Q\s*)?\d+[\.\)]\s+.+)` (case-insensitive), as a
boolean test (the code buffers the whole line, not the group). -/
def qMatch (s : List Char) : Bool :=
  let s1 := s.dropWhile pyIsSpace
  let s2 := match s1 with
    | c :: rest => if c = 'Q' ∨ c = 'q' then rest.dropWhile pyIsSpace else s1
    | [] => s1
  let digs := (s2.takeWhile Char.isDigit).length
  if digs = 0 then false
  else
    match s2.drop digs with
    | d :: rest2 =>
      if d = '.' ∨ d = ')' then
        let k := (rest2.takeWhile pyIsSpace).length
        if k = 0 then false
        else if rest2.drop k ≠ [] then true
        else 2 ≤ k
      else false
    | [] => false

def marksAt (prevIsWord : Bool) (s : List Char) : Bool :=
  !prevIsWord && startsCaseless ['m', 'a', 'r', 'k'] s &&
  (match s.drop 4 with
   | [] => true
   | c :: _ => !isWordChar c)

def marksSearchAux : Bool → List Char → Bool
  | _, [] => false
  | prev, c :: rest => marksAt prev (c :: rest) || marksSearchAux (isWordChar c) rest

/-- Model of `_MARKS_RE = \bmark\b` (case-insensitive), as `re.search`. -/
def marksMatch (s : List Char) : Bool :=
  marksSearchAux false s

/-- Model of `flush_question` of `_group_lines_into_html`. -/
def flushQuestion (render : String → String) (parts : List String)
    (bufQ : List String) (bufOpts : List (Char × String)) : List String :=
  if bufQ = [] ∧ bufOpts = [] then parts
  else
    let qHtml := render (pyStrip (String.intercalate "\n" bufQ))
    if bufOpts ≠ [] then
      parts ++ ["<div class=\x27item\x27>",
                "<div class=\x27stem\x27>" ++ qHtml ++ "</div>",
                "<div class=\x27mcq\x27><ol>"] ++
        bufOpts.map (fun kv => "<li>" ++ render kv.2 ++ "</li>") ++
      ["</ol></div>", "</div>"]
    else parts ++ ["<div class=\x27item\x27>" ++ qHtml ++ "</div>"]

/-- Model of `buffer_opts[-1] = (k, prev + " " + ln)` (the list is non-empty
whenever `in_opts` holds; Python would raise on the empty case). -/
def appendToLast : List (Char × String) → String → List (Char × String)
  | [], _ => []
  | [kv], ln => [(kv.1, kv.2 ++ " " ++ ln)]
  | kv :: rest, ln => kv :: appendToLast rest ln

/-- The main line loop of `_group_lines_into_html`, with the running
`html_parts`, `buffer_question`, `buffer_opts` and `in_opts` state. -/
def groupLinesLoop (render : String → String) :
    List String → List String → List String → List (Char × String) → Bool → List String
  | [], parts, bufQ, bufOpts, _ => flushQuestion render parts bufQ bufOpts
  | raw :: rest, parts, bufQ, bufOpts, inOpts =>
    let ln := pyStrip raw
    if ln = "" then
      groupLinesLoop render rest
        (flushQuestion render parts bufQ bufOpts ++ ["<div style=\x27height:5mm\x27></div>"])
        [] [] false
    else if secMatch ln.data then
      groupLinesLoop render rest
        (flushQuestion render parts bufQ bufOpts ++ ["<h2>" ++ htmlEscape ln ++ "</h2>"])
        [] [] false
    else
      match optMatch ln.data with
      | some kv => groupLinesLoop render rest parts bufQ (bufOpts ++ [kv]) true
      | none =>
        if qMatch ln.data then
          groupLinesLoop render rest (flushQuestion render parts bufQ bufOpts) [ln] [] false
        else if marksMatch ln.data then
          groupLinesLoop render rest
            (flushQuestion render parts bufQ bufOpts ++
              ["<div class=\x27points\x27>" ++ htmlEscape ln ++ "</div>"])
            [] [] false
        else if inOpts then
          groupLinesLoop render rest parts bufQ (appendToLast bufOpts ln) true
        else if bufQ ≠ [] then
          groupLinesLoop render rest parts (bufQ ++ [ln]) bufOpts inOpts
        else
          groupLinesLoop render rest
            (parts ++ ["<div class=\x27item\x27>" ++ render ln ++ "</div>"])
            bufQ bufOpts inOpts

/-- The line split of `_group_lines_into_html`:
`paper_text.replace("\r\n","\n").replace("\r","\n").split("\n")`. -/
def splitNlLines (text : String) : List String :=
  (splitNl (pyReplace (pyReplace text.data ['\r', '\n'] ['\n']) ['\r'] ['\n'])).map String.mk

/-- Model of `mock_export._group_lines_into_html`, parameterized by the markdown
renderer. -/
def groupLinesIntoHtml (render : String → String) (paperText : String) : String :=
  String.intercalate "\n" (groupLinesLoop render (splitNlLines paperText) [] [] [] false)

/-! ## Claim theorems: math-block stitching (C7) -/

/-- A line the classifier treats as plain body text: non-blank after
stripping, and matching none of the section/option/question/marks
patterns. -/
def plainLine (s : String) : Prop :=
  pyStrip s ≠ "" ∧ secMatch (pyStrip s).data = false ∧
  optMatch (pyStrip s).data = none ∧ qMatch (pyStrip s).data = false ∧
  marksMatch (pyStrip s).data = false

theorem groupLinesLoop_plain (render : String → String) :
    ∀ (lines : List String) (parts : List String),
      (∀ ln ∈ lines, plainLine ln) →
      groupLinesLoop render lines parts [] [] false =
        parts ++ lines.map (fun ln =>
          "<div class=\x27item\x27>" ++ render (pyStrip ln) ++ "</div>") := by
  intro lines
  induction lines with
  | nil =>
    intro parts _
    rw [groupLinesLoop]
    simp [flushQuestion]
  | cons raw rest ih =>
    intro parts h
    obtain ⟨h1, h2, h3, h4, h5⟩ := h raw (List.mem_cons_self _ _)
    rw [groupLinesLoop]
    rw [if_neg h1, if_neg (by rw [h2]; exact Bool.false_ne_true), h3]
    rw [if_neg (by rw [h4]; exact Bool.false_ne_true),
        if_neg (by rw [h5]; exact Bool.false_ne_true)]
    rw [if_neg (by simp)]
    rw [ih _ (fun ln hln => h ln (List.mem_cons_of_mem _ hln))]
    simp

set_option maxRecDepth 4000 in
/-- C7 counterexample: a block-math expression opened on line 1 and
closed on line 3 is NOT stitched into one unit — each line becomes its
own independent `item` div, and the claimed single buffered unit
`"$$ x^2 $$"` appears nowhere in the output. -/
theorem math_stitching_counterexample :
    groupLinesIntoHtml dummyRender "$$\nx^2\n$$" =
      "<div class=\x27item\x27>$$</div>\n<div class=\x27item\x27>x^2</div>\n<div class=\x27item\x27>$$</div>" ∧
    ¬ ("$$ x^2 $$".data <:+: (groupLinesIntoHtml dummyRender "$$\nx^2\n$$").data) :=
  ⟨rfl, by decide⟩

/-- C7 (amended): the renderer's line processing does no math-block
stitching at all — every plain body line (blank/section/option/question/
marks patterns excluded) is rendered independently as its own `item`
unit, whether or not it contains or opens a block-math delimiter.  A
delimiter pair on a single line therefore stays together in that line's
unit, and an unmatched opening delimiter causes no buffering of
subsequent lines. -/
theorem no_math_stitching (render : String → String) (text : String)
    (h : ∀ ln ∈ splitNlLines text, plainLine ln) :
    groupLinesIntoHtml render text =
      String.intercalate "\n" ((splitNlLines text).map (fun ln =>
        "<div class=\x27item\x27>" ++ render (pyStrip ln) ++ "</div>")) := by
  unfold groupLinesIntoHtml
  rw [groupLinesLoop_plain render _ [] h]
  simp

/-- Witness for the amended C7 at the three-line block-math input. -/
theorem no_math_stitching_witness :
    (∀ ln ∈ splitNlLines "$$\nx^2\n$$", plainLine ln) ∧
    groupLinesIntoHtml dummyRender "$$\nx^2\n$$" =
      String.intercalate "\n" ((splitNlLines "$$\nx^2\n$$").map (fun ln =>
        "<div class=\x27item\x27>" ++ dummyRender (pyStrip ln) ++ "</div>")) := by
  have h : ∀ ln ∈ splitNlLines "$$\nx^2\n$$", plainLine ln := by
    intro ln hln
    have hln' : ln ∈ ["$$", "x^2", "$$"] := hln
    fin_cases hln' <;>
      exact ⟨by decide, by decide, by decide, by decide, by decide⟩
  exact ⟨h, no_math_stitching dummyRender "$$\nx^2\n$$" h⟩
